import Mathlib

/-!
Verification development for the claude-parallel-workers repository.

Shallow embedding of the sources `src/shared/event_store_v2.py`,
`src/shared/event_store.py`, `src/shared/models.py`,
`src/orchestrator/orchestrator.py` and `src/worker/worker.py`.

Modelling conventions: timestamps are natural numbers (seconds); SQLite
tables are Lean lists of row structures kept in insertion order; JSON
payloads are records of optional fields; enum values are inductive types
whose constructors correspond to the stored strings; subprocess execution
is abstracted by a `CommandOutcome` oracle.
-/

namespace EventStoreV2

/-- The `EventType` enum of `event_store_v2.py`; each constructor stands for
the string value the source stores in the `events.event_type` column. -/
inductive EventType where
  | start
  | progress
  | artifact
  | error
  | done
  | merge_ready
  | heartbeat
  | blocked
  | unblocked
deriving DecidableEq

/-- A JSON event payload, as a record of the optional fields the sources
ever place in one (`command`, `prompt`, `percent`, `message`, `path`,
`error`, `success`). -/
structure Payload where
  command : Option String := none
  prompt : Option String := none
  percent : Option Int := none
  message : Option String := none
  path : Option String := none
  error : Option String := none
  success : Option Bool := none
deriving DecidableEq

/-- A row of the `events` table (schema in `init_schema`). -/
structure EventRow where
  id : Nat
  run_id : String
  worker_id : Option String
  event_type : EventType
  task_id : Option String
  payload : Payload
deriving DecidableEq

/-- A row of the `workers` table (schema in `init_schema`). -/
structure WorkerRow where
  id : String
  run_id : String
  task_id : Option String
  state : String
  progress : Int
  last_message : Option String
  started_at : Nat
  last_heartbeat : Nat
deriving DecidableEq

/-- A row of the `tasks` table (schema in `init_schema`); the `description`,
`inputs` and `outputs` columns are irrelevant to every query modelled here
and are omitted. -/
structure TaskRow where
  id : String
  run_id : String
  dependencies : List String
  state : String
  assigned_worker : Option String
deriving DecidableEq

/-- A row of the `blocks` table (schema in `init_schema`). -/
structure BlockRow where
  worker_id : String
  hook_event : String
  created_at : Nat
  expires_at : Nat
  reason : String
  retry_count : Nat
  max_retries : Nat
deriving DecidableEq

/-- The SQLite database of `EventStoreV2`: the four tables, each as a list
of rows in insertion order. -/
structure StoreState where
  events : List EventRow
  workers : List WorkerRow
  tasks : List TaskRow
  blocks : List BlockRow
deriving DecidableEq

/-- The field updates `update_worker_status` applies to an existing worker
row: `last_heartbeat = CURRENT_TIMESTAMP` always; `state` only when the
argument is truthy (`if state:`); `progress`, `task_id` and `last_message`
only when the corresponding argument is not `None`. -/
def updateRow (now : Nat) (state : Option String) (progress : Option Int)
    (task_id message : Option String) (w : WorkerRow) : WorkerRow :=
  let w1 := { w with last_heartbeat := now }
  let w2 := match state with
    | some st => if st ≠ "" then { w1 with state := st } else w1
    | none => w1
  let w3 := match progress with
    | some p => { w2 with progress := p }
    | none => w2
  let w4 := match task_id with
    | some t => { w3 with task_id := some t }
    | none => w3
  match message with
  | some m => { w4 with last_message := some m }
  | none => w4

/-- `EventStoreV2.update_worker_status`: if a row with the given id exists,
update it (`updateRow`); otherwise insert a new row whose state defaults to
`idle` (`state.value if state else WorkerState.IDLE.value`) and whose
progress is `progress or 0`. -/
def update_worker_status (s : StoreState) (now : Nat) (worker_id run_id : String)
    (state : Option String) (progress : Option Int)
    (task_id message : Option String) : StoreState :=
  if s.workers.any (fun w => w.id == worker_id) then
    { s with workers := s.workers.map (fun w =>
        if w.id == worker_id then updateRow now state progress task_id message w else w) }
  else
    { s with workers := s.workers ++ [{
        id := worker_id
        run_id := run_id
        task_id := task_id
        state := match state with
          | some st => if st ≠ "" then st else "idle"
          | none => "idle"
        progress := progress.getD 0
        last_message := message
        started_at := now
        last_heartbeat := now }] }

/-- `EventStoreV2.get_worker_status`: `SELECT * FROM workers WHERE id = ?`. -/
def get_worker_status (s : StoreState) (worker_id : String) : Option WorkerRow :=
  s.workers.find? (fun w => w.id == worker_id)

/-- The read `create_block` performs:
`SELECT retry_count FROM blocks WHERE worker_id = ? AND hook_event = ?
ORDER BY created_at DESC LIMIT 1`, modelled as the last matching row in
insertion order (in every state the source can produce, `created_at` is
nondecreasing along insertion order, so the last insertion is a row of
maximal `created_at`). -/
def mostRecentBlock (s : StoreState) (worker_id hook_event : String) : Option BlockRow :=
  (s.blocks.filter (fun b => b.worker_id == worker_id && b.hook_event == hook_event)).getLast?

/-- `EventStoreV2.create_block`: read the most recent block for the pair,
set `retry_count` to its counter plus one (zero when none exists), reject
when that counter has reached `max_retries`, otherwise insert a lease whose
expiry is `duration_seconds` in the future. -/
def create_block (s : StoreState) (now : Nat) (worker_id hook_event reason : String)
    (duration_seconds max_retries : Nat) : Bool × StoreState :=
  let retry_count := match mostRecentBlock s worker_id hook_event with
    | some row => row.retry_count + 1
    | none => 0
  if max_retries ≤ retry_count then (false, s)
  else (true, { s with blocks := s.blocks ++ [{
      worker_id := worker_id
      hook_event := hook_event
      created_at := now
      expires_at := now + duration_seconds
      reason := reason
      retry_count := retry_count
      max_retries := max_retries }] })

/-- `EventStoreV2.get_active_blocks`: first `DELETE FROM blocks WHERE
datetime(expires_at) < datetime('now')`, then return the rows with
`datetime(expires_at) > datetime('now')`, filtered by `hook_event` when that
argument is truthy. Returns the selected rows and the purged table. -/
def get_active_blocks (s : StoreState) (now : Nat) (hook_event : Option String) :
    List BlockRow × StoreState :=
  let remaining := s.blocks.filter (fun b => decide (now ≤ b.expires_at))
  let active := remaining.filter (fun b =>
    decide (now < b.expires_at) &&
      (match hook_event with
       | some h => if h ≠ "" then b.hook_event == h else true
       | none => true))
  (active, { s with blocks := remaining })

/-- `EventStoreV2.get_ready_artifacts`: `SELECT DISTINCT
json_extract(e.payload, '$.path') FROM events e JOIN tasks t ON
e.task_id = t.id WHERE e.event_type = 'artifact' AND t.state = 'completed'
AND e.run_id = ? AND json_extract(e.payload, '$.path') IS NOT NULL`. -/
def get_ready_artifacts (s : StoreState) (run_id : String) : List String :=
  (s.events.filterMap (fun e =>
    match e.task_id, e.payload.path with
    | some tid, some p =>
      if e.event_type = EventType.artifact ∧ e.run_id = run_id
          ∧ s.tasks.any (fun t => t.id == tid && t.state == "completed") = true
      then some p else none
    | _, _ => none)).dedup

/-- The `.value` attribute of each `EventType` member of
`event_store_v2.py`: the string stored in the `event_type` column. -/
def EventType.value : EventType → String
  | .start => "start"
  | .progress => "progress"
  | .artifact => "artifact"
  | .error => "error"
  | .done => "done"
  | .merge_ready => "merge_ready"
  | .heartbeat => "heartbeat"
  | .blocked => "blocked"
  | .unblocked => "unblocked"

/-- The attribute names defined on an `EventStoreV2` instance
(`event_store_v2.py`): the constructor attributes and the methods
`init_schema` through `close`.  Neither `create_worker` nor `create_plan`
is among them. -/
def eventStoreV2Methods : List String :=
  ["db_path", "conn", "transaction", "init_schema", "append_event",
   "get_events", "update_worker_status", "get_worker_status",
   "get_all_workers", "detect_dead_workers", "create_block",
   "get_active_blocks", "get_ready_artifacts", "close"]

/-- Python attribute lookup on an `EventStoreV2` instance: a name outside
the class's attribute set raises `AttributeError`. -/
def getattrEventStoreV2 (name : String) : Except String Unit :=
  if name ∈ eventStoreV2Methods then .ok ()
  else .error ("AttributeError: \x27EventStoreV2\x27 object has no attribute \x27" ++ name ++ "\x27")

end EventStoreV2

namespace Models

/-- The `EventType` enum of `models.py` (the v1 wire vocabulary). -/
inductive EventType where
  | start
  | progress
  | artifact
  | error
  | done
  | merge_ready
deriving DecidableEq

/-- The `Event` dataclass of `models.py`, restricted to the fields
`compute_status` and the v1 `get_ready_artifacts` read. -/
structure Event where
  t : EventType
  w : Option String := none
  task : Option String := none
  msg : Option String := none
  path : Option String := none
  pct : Option Int := none
deriving DecidableEq

/-- The `.value` attribute of each v1 `EventType` member (`models.py`):
this enum is the one `worker.py` and `orchestrator.py` import, so
`EventType.X.value` at their call sites denotes these strings. -/
def EventType.value : EventType → String
  | .start => "start"
  | .progress => "progress"
  | .artifact => "artifact"
  | .error => "error"
  | .done => "done"
  | .merge_ready => "merge_ready"

end Models

namespace EventStore

/-- One entry of the `workers_map` dictionary built by `compute_status`. -/
structure WorkerInfo where
  id : String
  state : String
  percent : Int
  last_msg : String
  task : Option String
deriving DecidableEq

/-- The `Status` dataclass of `models.py` as produced by `compute_status`. -/
structure Status where
  run_id : String
  workers : List WorkerInfo
  blocked_on : List String
  merge_ready : Bool
deriving DecidableEq

/-- Python's substring test `needle in hay`, on character lists. -/
def containsSeq (needle : List Char) : List Char → Bool
  | [] => needle.isEmpty
  | c :: rest => needle.isPrefixOf (c :: rest) || containsSeq needle rest

/-- The check `'waiting' in (event.msg or '').lower()` from
`compute_status`. -/
def lowerHasWaiting (m : String) : Bool :=
  containsSeq "waiting".toList (m.toList.map Char.toLower)

/-- The per-event mutation `compute_status` applies to the triggering
worker's entry of `workers_map` (the `event.t` branches of the source
loop).  A message only replaces `last_msg` when it is truthy (nonempty). -/
def applyEventToWorker (wi : WorkerInfo) (e : Models.Event) : WorkerInfo :=
  match e.t with
  | .start => { wi with state := "running", percent := 0 }
  | .progress =>
    let wi1 := match e.pct with
      | some p => { wi with percent := p }
      | none => wi
    let wi2 := match e.msg with
      | some m => if m ≠ "" then { wi1 with last_msg := m } else wi1
      | none => wi1
    if lowerHasWaiting (e.msg.getD "") then { wi2 with state := "waiting" } else wi2
  | .error =>
    let wi1 := { wi with state := "error" }
    match e.msg with
    | some m => if m ≠ "" then { wi1 with last_msg := m } else wi1
    | none => wi1
  | .done => { wi with state := "done", percent := 100 }
  | _ => wi

/-- Python `set.add`, on a duplicate-free list. -/
def insertSet (l : List String) (x : String) : List String :=
  if x ∈ l then l else l ++ [x]

/-- Python `set.discard`, on a duplicate-free list. -/
def removeSet (l : List String) (x : String) : List String :=
  l.filter (fun y => y ≠ x)

/-- The mutable accumulators of the `compute_status` loop: `workers_map`
(in dictionary insertion order), `tasks_done` and `tasks_pending`. -/
structure FoldState where
  workers : List WorkerInfo
  tasks_done : List String
  tasks_pending : List String
deriving DecidableEq

/-- One iteration of the `compute_status` event loop: events without a
worker id are skipped; otherwise the worker entry is created on first
sight (state `init`, percent 0, empty message, the event's task) and then
mutated per event type; `tasks_pending` and `tasks_done` are maintained by
the `start` and `done` branches when the event carries a truthy task id. -/
def stepStatus (st : FoldState) (e : Models.Event) : FoldState :=
  match e.w with
  | none => st
  | some w =>
    let workers0 := if st.workers.any (fun wi => wi.id == w) then st.workers
      else st.workers ++ [{ id := w, state := "init", percent := 0, last_msg := "", task := e.task }]
    let workers1 := workers0.map (fun wi => if wi.id == w then applyEventToWorker wi e else wi)
    let done1 := match e.t, e.task with
      | .done, some tk => if tk ≠ "" then insertSet st.tasks_done tk else st.tasks_done
      | _, _ => st.tasks_done
    let pending1 := match e.t, e.task with
      | .start, some tk => if tk ≠ "" then insertSet st.tasks_pending tk else st.tasks_pending
      | .done, some tk => if tk ≠ "" then removeSet st.tasks_pending tk else st.tasks_pending
      | _, _ => st.tasks_pending
    { workers := workers1, tasks_done := done1, tasks_pending := pending1 }

/-- `EventStore.compute_status`: fold the event log, then derive
`blocked_on = tasks_pending - tasks_done` and
`merge_ready = (no pending) and (some done)`. -/
def compute_status (run_id : String) (events : List Models.Event) : Status :=
  let fs := events.foldl stepStatus { workers := [], tasks_done := [], tasks_pending := [] }
  { run_id := run_id
    workers := fs.workers
    blocked_on := fs.tasks_pending.filter (fun t => t ∉ fs.tasks_done)
    merge_ready := fs.tasks_pending.isEmpty && !fs.tasks_done.isEmpty }

/-- `EventStore.get_ready_artifacts` (v1): first pass collects the workers
having a `done` event with a truthy worker id; second pass collects the
truthy paths of `artifact` events whose worker is in that set. -/
def get_ready_artifacts (events : List Models.Event) : List String :=
  let done_workers := events.filterMap (fun e =>
    match e.t, e.w with
    | .done, some w => if w ≠ "" then some w else none
    | _, _ => none)
  events.filterMap (fun e =>
    match e.t, e.w, e.path with
    | .artifact, some w, some p =>
      if w ∈ done_workers then (if p ≠ "" then some p else none) else none
    | _, _, _ => none)

end EventStore

namespace Orchestrator

/-- The `TaskDefinition` dataclass of `orchestrator.py`. -/
structure TaskDefinition where
  name : String
  command : String
  prompt : String
  dependencies : List String
  timeout : Nat
deriving DecidableEq

/-- The set `task_names = {t.name for t in self.task_defs}` (as a list;
only membership is ever used). -/
def taskNames (tds : List TaskDefinition) : List String := tds.map (fun t => t.name)

/-- The nested loop of `_validate_dependencies`: the first task (in input
order) with a dependency outside `task_names` raises
`ValueError(f"Task '{task.name}' depends on unknown task '{dep}'")`. -/
def validateLoop (task_names : List String) : List TaskDefinition → Except String Unit
  | [] => .ok ()
  | t :: rest =>
    match t.dependencies.find? (fun d => !task_names.contains d) with
    | some d => .error ("Task \x27" ++ t.name ++ "\x27 depends on unknown task \x27" ++ d ++ "\x27")
    | none => validateLoop task_names rest

/-- `Orchestrator._validate_dependencies`. -/
def validate_dependencies (tds : List TaskDefinition) : Except String Unit :=
  validateLoop (taskNames tds) tds

/-- One round of `_resolve_dependencies`: the not-yet-placed tasks, in
input order, whose dependencies are all in `completed`. -/
def readyTasks (tds : List TaskDefinition) (c : List String) : List TaskDefinition :=
  tds.filter (fun t => !c.contains t.name && t.dependencies.all (fun d => c.contains d))

/-- Python `set.add` for the `completed` set of `_resolve_dependencies`. -/
def insertName (c : List String) (n : String) : List String :=
  if n ∈ c then c else c ++ [n]

/-- `completed.update(t.name for t in ready)`. -/
def insertNames (c : List String) (b : List TaskDefinition) : List String :=
  b.foldl (fun acc t => insertName acc t.name) c

/-- The `completed` set after processing a list of already-emitted batches,
starting from `c`. -/
def completedAfter (c : List String) (bs : List (List TaskDefinition)) : List String :=
  bs.foldl insertNames c

/-- The `while len(completed) < len(self.task_defs)` loop of
`_resolve_dependencies`, with an explicit fuel parameter for termination.
Each productive round grows `completed` by at least one name, so fuel
`tds.length` is sufficient and the `"resolver fuel exhausted"` branch is
unreachable from `resolve_dependencies` (proved below). -/
def resolveLoop (tds : List TaskDefinition) : Nat → List String → Except String (List (List TaskDefinition))
  | 0, c =>
    if c.length < tds.length then
      if (readyTasks tds c).isEmpty then .error "Circular dependency detected in tasks"
      else .error "resolver fuel exhausted"
    else .ok []
  | fuel + 1, c =>
    if c.length < tds.length then
      if (readyTasks tds c).isEmpty then .error "Circular dependency detected in tasks"
      else (resolveLoop tds fuel (insertNames c (readyTasks tds c))).map
        (fun bs => readyTasks tds c :: bs)
    else .ok []

/-- `Orchestrator._resolve_dependencies`. -/
def resolve_dependencies (tds : List TaskDefinition) : Except String (List (List TaskDefinition)) :=
  resolveLoop tds tds.length []

/-- Name `a` depends directly on name `b`: some task named `a` lists `b`. -/
def dependsOn (tds : List TaskDefinition) (a b : String) : Prop :=
  ∃ t ∈ tds, t.name = a ∧ b ∈ t.dependencies

/-- The dependency relation contains a cycle: some name reaches itself
through one or more direct dependencies. -/
def HasCycle (tds : List TaskDefinition) : Prop :=
  ∃ a, Relation.TransGen (dependsOn tds) a a

/-- Acyclicity of the dependency relation, via its standard ranking
characterization: some rank function strictly decreases from each task's
name to each of its dependencies. -/
def Acyclic (tds : List TaskDefinition) : Prop :=
  ∃ rank : String → Nat, ∀ t ∈ tds, ∀ d ∈ t.dependencies, rank d < rank t.name

end Orchestrator

/-- The three ways a launched subprocess can come back to its caller:
completion with an exit code and captured output/error text, a timeout,
or a raised exception. -/
inductive CommandOutcome where
  | completed (returncode : Int) (stdout stderr : String)
  | timedOut
  | exn (message : String)
deriving DecidableEq

/-- A Python value bound to `append_event`'s `event_type` parameter: the
v2 `EventType` enum member the signature annotation expects, or the plain
string that every call site in `worker.py` and `orchestrator.py` actually
passes (`EventType.X.value`, worker.py:34-40/51-57/68-74/78-84/95-101/
120-126, orchestrator.py:148-154/207-221/231-237/259-265/283-289). -/
inductive PyEventTypeArg where
  | enumMember (e : EventStoreV2.EventType)
  | pyStr (s : String)
deriving DecidableEq

/-- The expression `event_type.value` that the present `append_event`
evaluates (event_store_v2.py:217): attribute lookup yields the member's
string on an enum member and raises `AttributeError` on a `str`, before
any row is inserted. -/
def eventTypeValue : PyEventTypeArg → Except String String
  | .enumMember e => .ok e.value
  | .pyStr _ => .error "AttributeError: \x27str\x27 object has no attribute \x27value\x27"

/-- Python keyword binding of a call against a callee signature: the call
raises `TypeError` when it passes a keyword outside the parameter list,
else when some parameter without a default receives no argument;
otherwise binding succeeds. -/
def bindKeywordCall (params required given : List String) : Except String Unit :=
  match given.find? (fun k => !params.contains k) with
  | some k => .error ("TypeError: unexpected keyword argument \x27" ++ k ++ "\x27")
  | none =>
    match required.find? (fun k => !given.contains k) with
    | some k => .error ("TypeError: missing required argument \x27" ++ k ++ "\x27")
    | none => .ok ()

/-- The parameter names of the present `update_worker_status`
(event_store_v2.py:267-275). -/
def update_worker_status_params : List String :=
  ["worker_id", "run_id", "state", "progress", "task_id", "message"]

/-- The parameters of `update_worker_status` without a default value
(event_store_v2.py:267-275): `worker_id` and `run_id`. -/
def update_worker_status_required : List String := ["worker_id", "run_id"]

/-- The keyword names every `update_worker_status` call in `worker.py` and
`orchestrator.py` passes (worker.py:42-47/59-64/86-91/103-108,
orchestrator.py:157-162/223-228/239-244/267-272/291-296): no `run_id`,
and `last_message` instead of `message`. -/
def update_status_call_kwargs : List String :=
  ["worker_id", "state", "progress", "last_message"]

/-- One observable store/filesystem effect of a worker or of the
orchestrator's per-task coroutine: an `append_event` call (event type and
payload), an `update_worker_status` call (the state/progress/message
fields it passes), or a file write. -/
inductive WOp where
  | append (event_type : EventStoreV2.EventType) (payload : EventStoreV2.Payload)
  | update (state : Option String) (progress : Option Int) (message : Option String)
  | writeFile (path : String) (content : String)
deriving DecidableEq

namespace Worker

/-- `Worker.update_progress`: append a `progress` event, then refresh the
status row to `busy` with the given percent and message. -/
def update_progress (percent : Int) (message : String) : List WOp :=
  [WOp.append .progress { percent := some percent, message := some message },
   WOp.update (some "busy") (some percent) (some message)]

/-- `Worker.report_artifact`: append an `artifact` event carrying the path. -/
def report_artifact (path : String) : List WOp :=
  [WOp.append .artifact { path := some path }]

/-- `Worker.report_error`: append an `error` event, then set the status row
to `error` with progress 0 and the error text as message. -/
def report_error (e : String) : List WOp :=
  [WOp.append .error { error := some e },
   WOp.update (some "error") (some 0) (some e)]

/-- `Worker.report_done`: append a `done` event, then set the status row to
`done` with progress 100. -/
def report_done : List WOp :=
  [WOp.append .done { success := some true },
   WOp.update (some "done") (some 100) (some "Completed successfully")]

/-- The opening of the prescribed `execute_command` trace: the `start`
event followed by the progress 0 and progress 10 updates
(worker.py:120-132). -/
def preOps (command : String) : List WOp :=
  WOp.append .start { command := some command } ::
    (update_progress 0 "Starting..." ++ update_progress 10 "Executing command...")

/-- The trace of effects the control flow of `Worker.execute_command`
(worker.py:110-169) prescribes, together with its boolean return: start
event and progress 0/10 updates (`preOps`), then — depending on how the
subprocess comes back — output capture, the artifact report and the
terminal report, or an error report for timeout and for a raised
exception.  In the present source this trace is never produced: the
function's first store call raises before the subprocess launches (see
`execute_command_run` below).  The definition records the per-outcome
behavior the function's own branches are written to deliver, which the
claims are compared against. -/
def execute_command (command : String) (working_dir : String) (timeout : Nat) :
    CommandOutcome → List WOp × Bool
  | .completed rc out err =>
    (preOps command ++ update_progress 90 "Command completed, processing output..." ++
      [WOp.writeFile (working_dir ++ "/output.txt") out] ++
      (if err ≠ "" then [WOp.writeFile (working_dir ++ "/error.txt") err] else []) ++
      report_artifact (working_dir ++ "/output.txt") ++
      (if rc = 0 then report_done
       else report_error ("Command exited with code " ++ toString rc)),
     rc == 0)
  | .timedOut =>
    (preOps command ++ report_error ("Command timed out after " ++ toString timeout ++ "s"), false)
  | .exn m =>
    (preOps command ++ report_error ("Exception: " ++ m), false)

/-- `Worker.execute_command` as the present source actually runs it: its
first statement (worker.py:120-126, before the `try` that starts at line
130) calls `append_event` with `event_type=EventType.START.value` — a
string — and the present `append_event` immediately evaluates
`event_type.value` (event_store_v2.py:217), raising `AttributeError`.
Nothing after that statement runs for any outcome; the exception has no
handler there and propagates to the caller.  The dead continuation is the
prescribed trace `execute_command`. -/
def execute_command_run (command : String) (working_dir : String) (timeout : Nat)
    (outcome : CommandOutcome) : Except String (List WOp × Bool) := do
  let _ ← eventTypeValue (PyEventTypeArg.pyStr (Models.EventType.start.value))
  pure (execute_command command working_dir timeout outcome)

/-- `Worker.report_artifact` as the present source runs it: its only
statement (worker.py:68-74) calls `append_event` with the string
`EventType.ARTIFACT.value`, which raises `AttributeError` inside the
present `append_event` (event_store_v2.py:217) before any row is
inserted — no artifact event can be appended. -/
def report_artifact_run (path : String) : Except String (List WOp) := do
  let _ ← eventTypeValue (PyEventTypeArg.pyStr (Models.EventType.artifact.value))
  pure (report_artifact path)

end Worker

namespace Orchestrator

/-- One entry of the result list `Orchestrator._execute_task` returns. -/
structure TaskResult where
  task : String
  worker : String
  success : Bool
  output : Option String
  error : Option String
deriving DecidableEq

/-- The result record and post-spawn effect trace the control flow of
`Orchestrator._execute_task` (orchestrator.py:166-303) prescribes per
outcome: on completion it writes the captured output (and nonempty
stderr), then on exit code 0 reports artifact + done, else an error with
the stderr text (or `"Command failed"`); its timeout and exception
branches build an error report and a result value.  In the present source
the record is never returned: every store call the coroutine makes raises
(string event types into `append_event` — see `eventTypeValue` — and
`update_worker_status` called without `run_id` and with `last_message=` —
see `bindKeywordCall`), the `except` handler's own `append_event`
(orchestrator.py:283-289, see `execute_task_handler_first_call`) re-raises,
and its caller never runs at all (`create_plan_run`).  The definition
records the per-task aggregation the coroutine is written to deliver. -/
def execute_task_outcome (t : TaskDefinition) :
    CommandOutcome → TaskResult × List WOp
  | .completed rc out err =>
    ({ task := t.name, worker := "W-" ++ t.name, success := rc == 0,
       output := some out, error := if err ≠ "" then some err else none },
     [WOp.writeFile ("workers/W-" ++ t.name ++ "/output.txt") out] ++
      (if err ≠ "" then [WOp.writeFile ("workers/W-" ++ t.name ++ "/error.txt") err] else []) ++
      (if rc = 0 then
        [WOp.append .artifact { path := some ("workers/W-" ++ t.name ++ "/output.txt") },
         WOp.append .done { success := some true },
         WOp.update (some "done") (some 100) (some "Completed successfully")]
       else
        [WOp.append .error { error := some (if err ≠ "" then err else "Command failed") },
         WOp.update (some "error") (some 0) (some (if err ≠ "" then err else "Command failed"))]))
  | .timedOut =>
    ({ task := t.name, worker := "W-" ++ t.name, success := false, output := none,
       error := some ("Task timed out after " ++ toString t.timeout ++ "s") },
     [WOp.append .error { error := some ("Task timed out after " ++ toString t.timeout ++ "s") },
      WOp.update (some "error") (some 0) (some ("Task timed out after " ++ toString t.timeout ++ "s"))])
  | .exn m =>
    ({ task := t.name, worker := "W-" ++ t.name, success := false, output := none,
       error := some ("Exception: " ++ m) },
     [WOp.append .error { error := some ("Exception: " ++ m) },
      WOp.update (some "error") (some 0) (some ("Exception: " ++ m))])

/-- `Orchestrator._execute_task`, keyed by the outcome the oracle assigns
to the task's command. -/
def execute_task (oracle : String → CommandOutcome) (t : TaskDefinition) :
    TaskResult × List WOp :=
  execute_task_outcome t (oracle t.name)

/-- The first statement of the `except Exception` handler of
`_execute_task` (orchestrator.py:283-289): `append_event` with the string
`EventType.ERROR.value`, which raises `AttributeError` inside the present
`append_event` — the handler re-raises instead of recording the error. -/
def execute_task_handler_first_call : Except String String :=
  eventTypeValue (PyEventTypeArg.pyStr (Models.EventType.error.value))

/-- The keyword names `_create_plan` passes to the `models.Task`
constructor (orchestrator.py:111-118). -/
def createPlanTaskKwargs : List String :=
  ["id", "description", "dependencies", "inputs", "outputs", "worker_hint"]

/-- The field names of the `models.Task` dataclass (models.py:84-91): the
dependency field is `deps`, not `dependencies`. -/
def modelsTaskFields : List String :=
  ["id", "description", "deps", "inputs", "outputs", "worker_hint"]

/-- The `models.Task` fields without a default (models.py:84-91). -/
def modelsTaskRequired : List String := ["id", "description"]

/-- `Orchestrator._create_plan` as the present source runs it
(orchestrator.py:106-134): with at least one resolved task, the first
`Task(id=..., description=..., dependencies=..., ...)` construction
raises `TypeError` — the dataclass field is `deps` — before anything is
stored; with no tasks at all, the loop body never runs and the
`self.store.create_plan` attribute lookup raises `AttributeError`
instead (the present `EventStoreV2` has no such method).  Every call
raises. -/
def create_plan_run (bs : List (List TaskDefinition)) : Except String Unit :=
  if bs.flatten.isEmpty then EventStoreV2.getattrEventStoreV2 "create_plan"
  else bindKeywordCall modelsTaskFields modelsTaskRequired createPlanTaskKwargs

/-- `Orchestrator.execute` (orchestrator.py:322-365): validate, resolve
into batches, persist the plan (`_create_plan`, orchestrator.py:341), then
run the batches in order — every task of a batch through `_execute_task`
concurrently (`asyncio.gather` preserves the batch's task order) — and
return the concatenated result list.  The two validation/resolution error
paths are exact.  In the present source `_create_plan` raises on every
run (`create_plan_run`), so the final `pure` — the batch loop's result
aggregation, whose own store calls would raise as well — is unreachable;
it records what the loop is written to return. -/
def execute (tds : List TaskDefinition) (oracle : String → CommandOutcome) :
    Except String (List TaskResult) := do
  let _ ← validate_dependencies tds
  let bs ← resolve_dependencies tds
  let _ ← create_plan_run bs
  pure ((bs.map (fun b => b.map (fun t => (execute_task oracle t).1))).flatten)

end Orchestrator

namespace EventStoreV2

/-- One SQL statement inside a transaction body: a read (no state change)
or a write. -/
inductive TxStmt where
  | read
  | write (f : StoreState → StoreState)

/-- Run the statements of a transaction body in order, with fault
injection: the statement at index `failAt` (if any) raises. -/
def runStmts : List TxStmt → Nat → Option Nat → StoreState → Except String StoreState
  | [], _, _, s => .ok s
  | stmt :: rest, i, failAt, s =>
    if failAt = some i then .error "statement raised"
    else match stmt with
      | .read => runStmts rest (i + 1) failAt s
      | .write f => runStmts rest (i + 1) failAt (f s)

/-- The `transaction` context manager of `EventStoreV2`: `BEGIN`, run the
body, `COMMIT` on success; on any exception `ROLLBACK` (the committed
state stays the pre-transaction state) and re-raise.  Returns the
committed state together with the outcome seen by the caller. -/
def transactionRun (stmts : List TxStmt) (failAt : Option Nat) (s : StoreState) :
    StoreState × Except String Unit :=
  match runStmts stmts 0 failAt s with
  | .ok sFinal => (sFinal, .ok ())
  | .error e => (s, .error e)

/-- The statements of the `update_worker_status` transaction body: the
existence check `SELECT id FROM workers WHERE id = ?`, then the dependent
`UPDATE`-or-`INSERT` write. -/
def update_worker_status_stmts (now : Nat) (worker_id run_id : String)
    (state : Option String) (progress : Option Int)
    (task_id message : Option String) : List TxStmt :=
  [TxStmt.read,
   TxStmt.write (fun s => update_worker_status s now worker_id run_id state progress task_id message)]

/-- The statements of the `create_block` transaction body: the retry-count
read, then the conditional `INSERT` (no row is inserted on rejection). -/
def create_block_stmts (now : Nat) (worker_id hook_event reason : String)
    (duration_seconds max_retries : Nat) : List TxStmt :=
  [TxStmt.read,
   TxStmt.write (fun s => (create_block s now worker_id hook_event reason duration_seconds max_retries).2)]

/-- The terminal worker states (`done`, `error`, `dead`), as enumerated by
the gating hooks (`stop.py`). -/
def terminalStates : List String := ["done", "error", "dead"]

end EventStoreV2

section StoreLemmas

open EventStoreV2

/-- `updateRow` never changes the row id. -/
theorem updateRow_id (now : Nat) (st : Option String) (pr : Option Int)
    (tid msg : Option String) (w : WorkerRow) :
    (updateRow now st pr tid msg w).id = w.id := by
  unfold updateRow
  cases st with
  | none => cases pr <;> cases tid <;> cases msg <;> rfl
  | some s0 =>
    by_cases h : s0 ≠ "" <;> simp [h] <;> cases pr <;> cases tid <;> cases msg <;> rfl

/-- `updateRow` with no state argument keeps the state field. -/
theorem updateRow_state_none (now : Nat) (pr : Option Int)
    (tid msg : Option String) (w : WorkerRow) :
    (updateRow now none pr tid msg w).state = w.state := by
  unfold updateRow
  cases pr <;> cases tid <;> cases msg <;> rfl

/-- `find?` over a map by an id-preserving function. -/
theorem find?_map_of_id (g : WorkerRow → WorkerRow) (hg : ∀ w, (g w).id = w.id)
    (l : List WorkerRow) (wid : String) :
    (l.map g).find? (fun w => w.id == wid) = (l.find? (fun w => w.id == wid)).map g := by
  induction l with
  | nil => rfl
  | cons a l ih =>
    by_cases h : a.id == wid
    · simp [List.find?, hg, h]
    · simp only [List.map_cons, List.find?]
      rw [hg a]
      simp only [h]
      exact ih

end StoreLemmas

/-- C1 counterexample. The claim says `create_block` returns not-accepted
exactly when the most recent existing block's retry count has reached
`max_retries`.  In this state the most recent block for `(W1, stop)` has
retry count 2, which has not reached `max_retries = 3`, yet `create_block`
returns not-accepted (the source rejects once the incremented counter
`2 + 1` reaches `max_retries`). -/
theorem C1_create_block_counterexample :
    let s : EventStoreV2.StoreState :=
      { events := [], workers := [], tasks := [],
        blocks := [{ worker_id := "W1", hook_event := "stop", created_at := 0,
                     expires_at := 100, reason := "workers busy",
                     retry_count := 2, max_retries := 3 }] }
    (EventStoreV2.mostRecentBlock s "W1" "stop").map (fun b => b.retry_count) = some 2 ∧
    2 < 3 ∧
    (EventStoreV2.create_block s 10 "W1" "stop" "workers busy" 5 3).1 = false := by
  exact ⟨by decide, by decide, by decide⟩

/-- C1 amended: `create_block` returns not-accepted exactly when the
incremented retry counter — the most recent existing block's count plus
one, or zero when no block exists for the pair — has reached
`max_retries`; on rejection the store is unchanged; otherwise it appends a
lease for the pair expiring `duration` seconds in the future, and
`get_active_blocks` includes that lease exactly at query times before its
expiry. -/
theorem C1_create_block_amended (s : EventStoreV2.StoreState) (now : Nat)
    (w h r : String) (dur mr : Nat) :
    ((EventStoreV2.create_block s now w h r dur mr).1 = false ↔
      mr ≤ (match EventStoreV2.mostRecentBlock s w h with
            | some row => row.retry_count + 1
            | none => 0)) ∧
    ((EventStoreV2.create_block s now w h r dur mr).1 = false →
      (EventStoreV2.create_block s now w h r dur mr).2 = s) ∧
    ((EventStoreV2.create_block s now w h r dur mr).1 = true →
      ∃ nb : EventStoreV2.BlockRow,
        (EventStoreV2.create_block s now w h r dur mr).2.blocks = s.blocks ++ [nb] ∧
        nb.worker_id = w ∧ nb.hook_event = h ∧ nb.expires_at = now + dur ∧
        nb.retry_count = (match EventStoreV2.mostRecentBlock s w h with
            | some row => row.retry_count + 1
            | none => 0) ∧
        ∀ t : Nat,
          (nb ∈ (EventStoreV2.get_active_blocks
                  (EventStoreV2.create_block s now w h r dur mr).2 t (some h)).1
            ↔ t < now + dur)) := by
  by_cases hrej : mr ≤ (match EventStoreV2.mostRecentBlock s w h with
      | some row => row.retry_count + 1
      | none => 0)
  · refine ⟨by simp [EventStoreV2.create_block, hrej], ?_, ?_⟩
    · intro _
      simp [EventStoreV2.create_block, hrej]
    · intro htrue
      exfalso
      simp [EventStoreV2.create_block, hrej] at htrue
  · refine ⟨by simp [EventStoreV2.create_block, hrej], ?_, ?_⟩
    · intro hfalse
      exfalso
      simp [EventStoreV2.create_block, hrej] at hfalse
    · intro _
      refine ⟨{ worker_id := w, hook_event := h, created_at := now,
                expires_at := now + dur, reason := r,
                retry_count := (match EventStoreV2.mostRecentBlock s w h with
                  | some row => row.retry_count + 1
                  | none => 0),
                max_retries := mr }, ?_, rfl, rfl, rfl, rfl, ?_⟩
      · simp [EventStoreV2.create_block, hrej]
      · intro t
        constructor
        · intro hmem
          simp only [EventStoreV2.get_active_blocks, List.mem_filter] at hmem
          have := hmem.2
          simp only [Bool.and_eq_true, decide_eq_true_eq] at this
          exact this.1
        · intro ht
          simp only [EventStoreV2.get_active_blocks, List.mem_filter]
          refine ⟨⟨?_, ?_⟩, ?_⟩
          · simp [EventStoreV2.create_block, hrej]
          · simp only [decide_eq_true_eq]
            omega
          · simp only [Bool.and_eq_true, decide_eq_true_eq]
            refine ⟨ht, ?_⟩
            by_cases hh : h ≠ "" <;> simp [hh]

/-- C1 witness: with one existing block for `(W1, stop)` at retry count 1
and `max_retries = 3`, `create_block` accepts and the inserted lease is
active exactly before its expiry `10 + 5`. -/
theorem C1_create_block_amended_witness :
    let s : EventStoreV2.StoreState :=
      { events := [], workers := [], tasks := [],
        blocks := [{ worker_id := "W1", hook_event := "stop", created_at := 0,
                     expires_at := 50, reason := "workers busy",
                     retry_count := 1, max_retries := 3 }] }
    (EventStoreV2.create_block s 10 "W1" "stop" "workers busy" 5 3).1 = true ∧
    ∃ nb : EventStoreV2.BlockRow,
      (EventStoreV2.create_block s 10 "W1" "stop" "workers busy" 5 3).2.blocks
          = s.blocks ++ [nb] ∧
      nb.worker_id = "W1" ∧ nb.hook_event = "stop" ∧ nb.expires_at = 10 + 5 ∧
      nb.retry_count = (match EventStoreV2.mostRecentBlock s "W1" "stop" with
          | some row => row.retry_count + 1
          | none => 0) ∧
      ∀ t : Nat,
        (nb ∈ (EventStoreV2.get_active_blocks
                (EventStoreV2.create_block s 10 "W1" "stop" "workers busy" 5 3).2
                t (some "stop")).1
          ↔ t < 10 + 5) := by
  refine ⟨by decide, ?_⟩
  exact (C1_create_block_amended _ 10 "W1" "stop" "workers busy" 5 3).2.2 (by decide)

/-- C2 counterexample. A worker whose stored state is terminal (`done`) is
moved back to the non-terminal state `busy` by a later
`update_worker_status` call, and in the v1 projection a `done` worker is
moved back to `running` by a later `start` event: neither operation guards
terminal states. -/
theorem C2_terminal_state_counterexample :
    (let s1 := EventStoreV2.update_worker_status
        { events := [], workers := [], tasks := [], blocks := [] }
        0 "W1" "R1" (some "done") (some 100) none (some "Completed successfully")
     let s2 := EventStoreV2.update_worker_status s1 1 "W1" "R1" (some "busy") (some 0) none none
     (EventStoreV2.get_worker_status s1 "W1").map (fun w => w.state) = some "done" ∧
     (EventStoreV2.get_worker_status s2 "W1").map (fun w => w.state) = some "busy" ∧
     "busy" ∉ EventStoreV2.terminalStates) ∧
    (let evs : List Models.Event :=
       [{ t := .done, w := some "W1", task := some "T1" },
        { t := .start, w := some "W1", task := some "T1" }]
     (EventStore.compute_status "R1" evs).workers.map (fun wi => (wi.id, wi.state))
        = [("W1", "running")]) := by
  exact ⟨⟨by decide, by decide, by decide⟩, by decide⟩


/-- A progress event whose message does not contain `waiting` never changes
the worker's state in the v1 projection. -/
theorem applyEventToWorker_progress_state (wi : EventStore.WorkerInfo) (e : Models.Event)
    (he : e.t = Models.EventType.progress)
    (hw : EventStore.lowerHasWaiting (e.msg.getD "") = false) :
    (EventStore.applyEventToWorker wi e).state = wi.state := by
  unfold EventStore.applyEventToWorker
  rw [he]
  simp only [hw, Bool.false_eq_true, if_false]
  cases e.pct with
  | none =>
    cases e.msg with
    | none => rfl
    | some m => by_cases hmm : m ≠ "" <;> simp [hmm]
  | some q =>
    cases e.msg with
    | none => rfl
    | some m => by_cases hmm : m ≠ "" <;> simp [hmm]

/-- C2 amended: the store does not itself enforce terminal monotonicity —
an explicit non-terminal state argument (or, in the v1 projection, a later
`start` event or a progress event whose message contains `waiting`)
overwrites a terminal state.  What does hold: a later
`update_worker_status` call that passes no state leaves the worker's state
unchanged (so heartbeat- and refresh-style calls keep a terminal worker
terminal); an update addressed to a different worker id — as a fresh
attempt under a new id is — leaves the worker's row untouched; and the v1
projection `compute_status` keeps a terminal (`done`/`error`) worker
terminal under every event other than a `start` event or a progress event
whose message contains `waiting`. -/
theorem C2_terminal_state_amended :
    (∀ (s : EventStoreV2.StoreState) (now : Nat) (wid run : String)
       (pr : Option Int) (tid msg : Option String) (w : EventStoreV2.WorkerRow),
       EventStoreV2.get_worker_status s wid = some w →
       w.state ∈ EventStoreV2.terminalStates →
       ∃ w', EventStoreV2.get_worker_status
               (EventStoreV2.update_worker_status s now wid run none pr tid msg) wid = some w'
             ∧ w'.state = w.state) ∧
    (∀ (s : EventStoreV2.StoreState) (now : Nat) (wid wid' run : String)
       (st : Option String) (pr : Option Int) (tid msg : Option String),
       wid' ≠ wid →
       EventStoreV2.get_worker_status
         (EventStoreV2.update_worker_status s now wid' run st pr tid msg) wid
         = EventStoreV2.get_worker_status s wid) ∧
    (∀ (wi : EventStore.WorkerInfo) (e : Models.Event),
       wi.state ∈ ["done", "error"] →
       e.t ≠ Models.EventType.start →
       ¬(e.t = Models.EventType.progress ∧ EventStore.lowerHasWaiting (e.msg.getD "") = true) →
       (EventStore.applyEventToWorker wi e).state ∈ ["done", "error"]) := by
  refine ⟨?_, ?_, ?_⟩
  · intro s now wid run pr tid msg w hfind hterm
    have hfind' : s.workers.find? (fun u => u.id == wid) = some w := hfind
    have hpred := List.find?_some hfind'
    have hmem : w ∈ s.workers := List.mem_of_find?_eq_some hfind'
    have hany : s.workers.any (fun u => u.id == wid) = true :=
      List.any_eq_true.mpr ⟨w, hmem, hpred⟩
    have hg : ∀ u : EventStoreV2.WorkerRow,
        ((fun u => if u.id == wid then EventStoreV2.updateRow now none pr tid msg u else u) u).id
          = u.id := by
      intro u
      by_cases hu : (u.id == wid) = true <;> simp [hu, updateRow_id]
    refine ⟨EventStoreV2.updateRow now none pr tid msg w, ?_,
      updateRow_state_none now pr tid msg w⟩
    show (EventStoreV2.update_worker_status s now wid run none pr tid msg).workers.find?
        (fun u => u.id == wid) = _
    unfold EventStoreV2.update_worker_status
    rw [if_pos hany]
    show (s.workers.map
        (fun u => if u.id == wid then EventStoreV2.updateRow now none pr tid msg u else u)).find?
        (fun u => u.id == wid) = _
    rw [find?_map_of_id
      (fun u : EventStoreV2.WorkerRow =>
        if u.id == wid then EventStoreV2.updateRow now none pr tid msg u else u) hg, hfind']
    simp only [Option.map_some']
    rw [if_pos hpred]
  · intro s now wid wid' run st pr tid msg hne
    have hne' : ((wid' : String) == wid) = false := by
      simp only [beq_eq_false_iff_ne, ne_eq]
      exact hne
    show (EventStoreV2.update_worker_status s now wid' run st pr tid msg).workers.find?
        (fun u => u.id == wid) = s.workers.find? (fun u => u.id == wid)
    unfold EventStoreV2.update_worker_status
    by_cases hany : s.workers.any (fun u => u.id == wid') = true
    · rw [if_pos hany]
      have hg : ∀ u : EventStoreV2.WorkerRow,
          ((fun u => if u.id == wid' then EventStoreV2.updateRow now st pr tid msg u else u) u).id
            = u.id := by
        intro u
        by_cases hu : (u.id == wid') = true <;> simp [hu, updateRow_id]
      show (s.workers.map
          (fun u : EventStoreV2.WorkerRow =>
            if u.id == wid' then EventStoreV2.updateRow now st pr tid msg u else u)).find?
          (fun u => u.id == wid) = _
      rw [find?_map_of_id
        (fun u : EventStoreV2.WorkerRow =>
          if u.id == wid' then EventStoreV2.updateRow now st pr tid msg u else u) hg]
      cases hfind : s.workers.find? (fun u => u.id == wid) with
      | none => rfl
      | some w =>
        have hpredw := List.find?_some hfind
        have hwid : w.id = wid := eq_of_beq hpredw
        have hwf : (w.id == wid') = false := by
          simp only [beq_eq_false_iff_ne, ne_eq, hwid]
          exact fun hc => hne hc.symm
        simp only [Option.map_some']
        rw [if_neg]
        simp only [beq_eq_false_iff_ne, ne_eq] at hwf
        simpa using hwf
    · rw [if_neg hany]
      show (s.workers ++ [_]).find? (fun u : EventStoreV2.WorkerRow => u.id == wid) = _
      rw [List.find?_append]
      simp [List.find?, hne']
  · intro wi e hterm hstart hwait
    by_cases he : e.t = Models.EventType.progress
    · have hw : EventStore.lowerHasWaiting (e.msg.getD "") = false := by
        by_cases hb : EventStore.lowerHasWaiting (e.msg.getD "") = true
        · exact absurd ⟨he, hb⟩ hwait
        · simpa using hb
      rw [applyEventToWorker_progress_state wi e he hw]
      exact hterm
    · cases het : e.t with
      | start => exact absurd het hstart
      | progress => exact absurd het he
      | error =>
        unfold EventStore.applyEventToWorker
        rw [het]
        cases e.msg with
        | none => simp
        | some m => by_cases hmm : m ≠ "" <;> simp [hmm]
      | done =>
        unfold EventStore.applyEventToWorker
        rw [het]
        simp
      | artifact =>
        unfold EventStore.applyEventToWorker
        rw [het]
        exact hterm
      | merge_ready =>
        unfold EventStore.applyEventToWorker
        rw [het]
        exact hterm

/-- C2 witness: a `done` worker stays `done` under a state-less refresh
call, is untouched by an update addressed to a different worker id, and in
the v1 projection stays `done` under a plain progress event. -/
theorem C2_terminal_state_amended_witness :
    let w0 : EventStoreV2.WorkerRow :=
      { id := "W1", run_id := "R1", task_id := some "T1", state := "done",
        progress := 100, last_message := none, started_at := 0, last_heartbeat := 0 }
    let s : EventStoreV2.StoreState :=
      { events := [], workers := [w0], tasks := [], blocks := [] }
    (∃ w', EventStoreV2.get_worker_status
        (EventStoreV2.update_worker_status s 5 "W1" "R1" none (some 50) none (some "hb")) "W1"
          = some w' ∧ w'.state = w0.state) ∧
    EventStoreV2.get_worker_status
        (EventStoreV2.update_worker_status s 5 "W2" "R1" (some "busy") none none none) "W1"
      = EventStoreV2.get_worker_status s "W1" ∧
    (EventStore.applyEventToWorker
        { id := "W1", state := "done", percent := 100, last_msg := "", task := none }
        { t := Models.EventType.progress, msg := some "80 percent done" }).state
      ∈ ["done", "error"] := by
  refine ⟨?_, ?_, ?_⟩
  · exact C2_terminal_state_amended.1 _ 5 "W1" "R1" (some 50) none (some "hb") _ rfl (by decide)
  · exact C2_terminal_state_amended.2.1 _ 5 "W1" "W2" "R1" (some "busy") none none none (by decide)
  · exact C2_terminal_state_amended.2.2 _ _ (by decide) (by decide) (by decide)

/-- C3 counterexample. A store state in which task `T1` is in state
`completed` while its worker `W1` is in state `error` (not `done`): the v2
`get_ready_artifacts` surfaces the artifact path of `T1` even though the
task's worker is not `done`, because the query joins on the task state
only and never consults worker state. -/
theorem C3_ready_artifacts_counterexample :
    let s : EventStoreV2.StoreState :=
      { events := [{ id := 1, run_id := "R1", worker_id := some "W1",
                     event_type := .artifact, task_id := some "T1",
                     payload := { path := some "workers/W1/output.txt" } }],
        workers := [{ id := "W1", run_id := "R1", task_id := some "T1",
                      state := "error", progress := 0, last_message := some "boom",
                      started_at := 0, last_heartbeat := 0 }],
        tasks := [{ id := "T1", run_id := "R1", dependencies := [],
                    state := "completed", assigned_worker := some "W1" }],
        blocks := [] }
    EventStoreV2.get_ready_artifacts s "R1" = ["workers/W1/output.txt"] ∧
    (EventStoreV2.get_worker_status s "W1").map (fun w => w.state) = some "error" ∧
    ("error" : String) ≠ "done" := by
  exact ⟨by decide, by decide, by decide⟩

/-- Membership in the v1 `done_workers` set: exactly the workers having a
`done` event with a truthy worker id. -/
theorem mem_v1_done_workers (events : List Models.Event) (w : String) :
    w ∈ events.filterMap (fun e =>
      match e.t, e.w with
      | .done, some w0 => if w0 ≠ "" then some w0 else none
      | _, _ => none) ↔
    ∃ e2 ∈ events, e2.t = Models.EventType.done ∧ e2.w = some w ∧ w ≠ "" := by
  rw [List.mem_filterMap]
  constructor
  · rintro ⟨e, he, hf⟩
    split at hf
    · rename_i w0 ht hw
      split at hf
      · rename_i hne
        obtain rfl : w0 = w := Option.some.inj hf
        exact ⟨e, he, ht, hw, hne⟩
      · exact absurd hf (by simp)
    · exact absurd hf (by simp)
  · rintro ⟨e, he, ht, hw, hne⟩
    refine ⟨e, he, ?_⟩
    simp only [ht, hw]
    rw [if_pos hne]

/-- C3 amended: the v2 `get_ready_artifacts` returns exactly the distinct
`artifact`-event paths of the run whose joined task row is in state
`completed` — it never surfaces an artifact of a task not in `completed`
state, but it does not consult the worker's state at all; the v1
`get_ready_artifacts` returns exactly the artifact paths of events whose
worker has some `done` event in the log. -/
theorem C3_ready_artifacts_amended :
    (∀ (s : EventStoreV2.StoreState) (run p : String),
      p ∈ EventStoreV2.get_ready_artifacts s run ↔
        ∃ e ∈ s.events, e.event_type = EventStoreV2.EventType.artifact ∧
          e.run_id = run ∧ e.payload.path = some p ∧
          ∃ tid, e.task_id = some tid ∧
            ∃ t ∈ s.tasks, t.id = tid ∧ t.state = "completed") ∧
    (∀ (events : List Models.Event) (p : String),
      p ∈ EventStore.get_ready_artifacts events ↔
        ∃ e ∈ events, e.t = Models.EventType.artifact ∧ e.path = some p ∧ p ≠ "" ∧
          ∃ w, e.w = some w ∧
            ∃ e2 ∈ events, e2.t = Models.EventType.done ∧ e2.w = some w ∧ w ≠ "") := by
  constructor
  · intro s run p
    unfold EventStoreV2.get_ready_artifacts
    rw [List.mem_dedup, List.mem_filterMap]
    constructor
    · rintro ⟨e, he, hf⟩
      refine ⟨e, he, ?_⟩
      split at hf
      · rename_i tid pth htid hpth
        split at hf
        · rename_i hcond
          obtain rfl : pth = p := Option.some.inj hf
          obtain ⟨h1, h2, h3⟩ := hcond
          obtain ⟨t, ht, hpred⟩ := List.any_eq_true.mp h3
          rw [Bool.and_eq_true] at hpred
          exact ⟨h1, h2, hpth, tid, htid, t, ht, eq_of_beq hpred.1, eq_of_beq hpred.2⟩
        · exact absurd hf (by simp)
      · exact absurd hf (by simp)
    · rintro ⟨e, he, h1, h2, h3, tid, htid, t, ht, hid, hstate⟩
      refine ⟨e, he, ?_⟩
      simp only [htid, h3]
      rw [if_pos]
      exact ⟨h1, h2, List.any_eq_true.mpr ⟨t, ht, by
        rw [Bool.and_eq_true]
        exact ⟨beq_iff_eq.mpr hid, beq_iff_eq.mpr hstate⟩⟩⟩
  · intro events p
    unfold EventStore.get_ready_artifacts
    rw [List.mem_filterMap]
    constructor
    · rintro ⟨e, he, hf⟩
      split at hf
      · rename_i w pth ht hw hpth
        split at hf
        · rename_i hmem
          split at hf
          · rename_i hpne
            obtain rfl : pth = p := Option.some.inj hf
            obtain ⟨e2, he2, ht2, hw2, hwne⟩ := (mem_v1_done_workers events w).mp hmem
            exact ⟨e, he, ht, hpth, hpne, w, hw, e2, he2, ht2, hw2, hwne⟩
          · exact absurd hf (by simp)
        · exact absurd hf (by simp)
      · exact absurd hf (by simp)
    · rintro ⟨e, he, ht, hpth, hpne, w, hw, e2, he2, ht2, hw2, hwne⟩
      refine ⟨e, he, ?_⟩
      simp only [ht, hw, hpth]
      rw [if_pos ((mem_v1_done_workers events w).mpr ⟨e2, he2, ht2, hw2, hwne⟩)]
      rw [if_pos hpne]

/-- C3 witness: the characterizations applied at concrete stores — a v2
artifact of a `completed` task is returned, and a v1 artifact of a worker
with a `done` event is returned. -/
theorem C3_ready_artifacts_amended_witness :
    let ev : EventStoreV2.EventRow :=
      { id := 1, run_id := "R1", worker_id := some "W1",
        event_type := .artifact, task_id := some "T1",
        payload := { path := some "out.txt" } }
    let tk : EventStoreV2.TaskRow :=
      { id := "T1", run_id := "R1", dependencies := [],
        state := "completed", assigned_worker := some "W1" }
    let s : EventStoreV2.StoreState :=
      { events := [ev], workers := [], tasks := [tk], blocks := [] }
    let e1 : Models.Event := { t := Models.EventType.artifact, w := some "W1", path := some "a.txt" }
    let e2 : Models.Event := { t := Models.EventType.done, w := some "W1" }
    "out.txt" ∈ EventStoreV2.get_ready_artifacts s "R1" ∧
    "a.txt" ∈ EventStore.get_ready_artifacts [e1, e2] := by
  intro ev tk s e1 e2
  constructor
  · exact (C3_ready_artifacts_amended.1 s "R1" "out.txt").mpr
      ⟨ev, by decide, by decide, by decide, by decide, "T1", by decide, tk, by decide,
        by decide, by decide⟩
  · exact (C3_ready_artifacts_amended.2 [e1, e2] "a.txt").mpr
      ⟨e1, by decide, by decide, by decide, by decide, "W1", by decide, e2, by decide,
        by decide, by decide, by decide⟩

/-- A read-then-write transaction body commits the write exactly when no
statement raises; on a raise the committed state is the pre-transaction
state and the error propagates. -/
theorem transactionRun_read_write (f : EventStoreV2.StoreState → EventStoreV2.StoreState)
    (failAt : Option Nat) (s : EventStoreV2.StoreState) :
    ((EventStoreV2.transactionRun [EventStoreV2.TxStmt.read, EventStoreV2.TxStmt.write f] failAt s).2
        = Except.ok ()
      ∧ (EventStoreV2.transactionRun [EventStoreV2.TxStmt.read, EventStoreV2.TxStmt.write f] failAt s).1
        = f s) ∨
    (∃ e, (EventStoreV2.transactionRun [EventStoreV2.TxStmt.read, EventStoreV2.TxStmt.write f] failAt s).2
        = Except.error e
      ∧ (EventStoreV2.transactionRun [EventStoreV2.TxStmt.read, EventStoreV2.TxStmt.write f] failAt s).1
        = s) := by
  match failAt with
  | none =>
    left
    constructor <;> rfl
  | some 0 =>
    right
    exact ⟨"statement raised", rfl, rfl⟩
  | some 1 =>
    right
    exact ⟨"statement raised", rfl, rfl⟩
  | some (n + 2) =>
    left
    have h0 : (some (n + 2) = some 0) = False := by simp
    have h1 : (some (n + 2) = some 1) = False := by simp
    constructor <;>
      simp [EventStoreV2.transactionRun, EventStoreV2.runStmts, h0, h1]

/-- The no-fault run of a read-then-write transaction commits the write. -/
theorem transactionRun_read_write_none (f : EventStoreV2.StoreState → EventStoreV2.StoreState)
    (s : EventStoreV2.StoreState) :
    EventStoreV2.transactionRun [EventStoreV2.TxStmt.read, EventStoreV2.TxStmt.write f] none s
      = (f s, Except.ok ()) := rfl

/-- C9: both multi-statement mutations — the worker-status upsert with its
existence check and the block retry-count read-then-insert — run inside
one transaction: whichever statement (if any) raises, the committed store
state is either the fully applied mutation (with the transaction
committing) or exactly the pre-transaction state (with the exception
propagating to the caller); partial writes never persist, and a fault-free
run commits the full mutation. -/
theorem C9_transaction_all_or_nothing (s : EventStoreV2.StoreState) (failAt : Option Nat)
    (now : Nat) (wid run : String) (st : Option String) (pr : Option Int)
    (tid msg : Option String) (w h r : String) (dur mr : Nat) :
    (((EventStoreV2.transactionRun
        (EventStoreV2.update_worker_status_stmts now wid run st pr tid msg) failAt s).2
          = Except.ok ()
      ∧ (EventStoreV2.transactionRun
        (EventStoreV2.update_worker_status_stmts now wid run st pr tid msg) failAt s).1
          = EventStoreV2.update_worker_status s now wid run st pr tid msg) ∨
     (∃ e, (EventStoreV2.transactionRun
        (EventStoreV2.update_worker_status_stmts now wid run st pr tid msg) failAt s).2
          = Except.error e
      ∧ (EventStoreV2.transactionRun
        (EventStoreV2.update_worker_status_stmts now wid run st pr tid msg) failAt s).1 = s)) ∧
    (((EventStoreV2.transactionRun
        (EventStoreV2.create_block_stmts now w h r dur mr) failAt s).2 = Except.ok ()
      ∧ (EventStoreV2.transactionRun
        (EventStoreV2.create_block_stmts now w h r dur mr) failAt s).1
          = (EventStoreV2.create_block s now w h r dur mr).2) ∨
     (∃ e, (EventStoreV2.transactionRun
        (EventStoreV2.create_block_stmts now w h r dur mr) failAt s).2 = Except.error e
      ∧ (EventStoreV2.transactionRun
        (EventStoreV2.create_block_stmts now w h r dur mr) failAt s).1 = s)) ∧
    (failAt = none →
      EventStoreV2.transactionRun
          (EventStoreV2.update_worker_status_stmts now wid run st pr tid msg) none s
        = (EventStoreV2.update_worker_status s now wid run st pr tid msg, Except.ok ()) ∧
      EventStoreV2.transactionRun (EventStoreV2.create_block_stmts now w h r dur mr) none s
        = ((EventStoreV2.create_block s now w h r dur mr).2, Except.ok ())) := by
  refine ⟨transactionRun_read_write _ failAt s, transactionRun_read_write _ failAt s, ?_⟩
  intro _
  exact ⟨transactionRun_read_write_none _ s, transactionRun_read_write_none _ s⟩

/-- C9 witness: with a fault injected at the write statement, both
transactions roll back to the empty store and propagate the error; with no
fault the upsert commits the inserted `busy` row. -/
theorem C9_transaction_all_or_nothing_witness :
    let s0 : EventStoreV2.StoreState := { events := [], workers := [], tasks := [], blocks := [] }
    (EventStoreV2.transactionRun
        (EventStoreV2.update_worker_status_stmts 0 "W1" "R1" (some "busy") (some 0) none none)
        none s0
      = (EventStoreV2.update_worker_status s0 0 "W1" "R1" (some "busy") (some 0) none none,
         Except.ok ())) ∧
    EventStoreV2.transactionRun
        (EventStoreV2.create_block_stmts 0 "W1" "stop" "busy" 5 3) none s0
      = ((EventStoreV2.create_block s0 0 "W1" "stop" "busy" 5 3).2, Except.ok ()) := by
  exact (C9_transaction_all_or_nothing _ none 0 "W1" "R1" (some "busy") (some 0) none none
    "W1" "stop" "busy" 5 3).2.2 rfl

/-- If some task of `l` has a dependency outside `task_names`, the
validation loop stops with the `ValueError` message naming the first such
task and dependency. -/
theorem validateLoop_error_of_offender (task_names : List String) :
    ∀ l : List Orchestrator.TaskDefinition,
    (∃ t ∈ l, ∃ d ∈ t.dependencies, task_names.contains d = false) →
    ∃ t ∈ l, ∃ d ∈ t.dependencies, task_names.contains d = false ∧
      Orchestrator.validateLoop task_names l
        = .error ("Task \x27" ++ t.name ++ "\x27 depends on unknown task \x27" ++ d ++ "\x27") := by
  intro l
  induction l with
  | nil => rintro ⟨t, ht, _⟩; exact absurd ht (List.not_mem_nil t)
  | cons t0 rest ih =>
    intro hex
    cases hfind : t0.dependencies.find? (fun d => !task_names.contains d) with
    | some d =>
      have hd : d ∈ t0.dependencies := List.mem_of_find?_eq_some hfind
      have hc := List.find?_some hfind
      rw [Bool.not_eq_true'] at hc
      refine ⟨t0, List.mem_cons_self t0 rest, d, hd, hc, ?_⟩
      rw [Orchestrator.validateLoop, hfind]
    | none =>
      have hall := List.find?_eq_none.mp hfind
      obtain ⟨t, ht, d, hd, hc⟩ := hex
      rcases List.mem_cons.mp ht with rfl | htrest
      · exact absurd hc (by simpa using hall d hd)
      · obtain ⟨t', ht', d', hd', hc', heq⟩ := ih ⟨t, htrest, d, hd, hc⟩
        refine ⟨t', List.mem_cons_of_mem t0 ht', d', hd', hc', ?_⟩
        rw [Orchestrator.validateLoop, hfind]
        exact heq

/-- C7: a task set with a dependency naming no task fails validation with
the `UnknownDependency` error naming the offending task and dependency,
and `execute` stops with that same error — before resolution computes any
batch and before any worker is spawned. -/
theorem C7_unknown_dependency (tds : List Orchestrator.TaskDefinition)
    (h : ∃ t ∈ tds, ∃ d ∈ t.dependencies, d ∉ Orchestrator.taskNames tds) :
    ∃ t ∈ tds, ∃ d ∈ t.dependencies, d ∉ Orchestrator.taskNames tds ∧
      Orchestrator.validate_dependencies tds
        = .error ("Task \x27" ++ t.name ++ "\x27 depends on unknown task \x27" ++ d ++ "\x27") ∧
      ∀ oracle : String → CommandOutcome,
        Orchestrator.execute tds oracle
          = .error ("Task \x27" ++ t.name ++ "\x27 depends on unknown task \x27" ++ d ++ "\x27") := by
  have h' : ∃ t ∈ tds, ∃ d ∈ t.dependencies,
      (Orchestrator.taskNames tds).contains d = false := by
    obtain ⟨t, ht, d, hd, hc⟩ := h
    refine ⟨t, ht, d, hd, ?_⟩
    rw [Bool.eq_false_iff]
    intro hcon
    exact hc (List.elem_iff.mp hcon)
  obtain ⟨t, ht, d, hd, hc, heq⟩ := validateLoop_error_of_offender _ tds h'
  refine ⟨t, ht, d, hd, ?_, heq, ?_⟩
  · intro hcon
    have hcon2 : (Orchestrator.taskNames tds).contains d = true := List.elem_iff.mpr hcon
    rw [hcon2] at hc
    cases hc
  · intro oracle
    unfold Orchestrator.execute
    rw [show Orchestrator.validate_dependencies tds
      = .error ("Task \x27" ++ t.name ++ "\x27 depends on unknown task \x27" ++ d ++ "\x27")
      from heq]
    rfl

/-- C7 witness: task `X` depends on unknown `Y`; validation and `execute`
both stop with the error naming `X` and `Y`. -/
theorem C7_unknown_dependency_witness :
    let tX : Orchestrator.TaskDefinition :=
      { name := "X", command := "x", prompt := "", dependencies := ["Y"], timeout := 5 }
    ∃ t ∈ [tX], ∃ d ∈ t.dependencies, d ∉ Orchestrator.taskNames [tX] ∧
      Orchestrator.validate_dependencies [tX]
        = .error ("Task \x27" ++ t.name ++ "\x27 depends on unknown task \x27" ++ d ++ "\x27") ∧
      ∀ oracle : String → CommandOutcome,
        Orchestrator.execute [tX] oracle
          = .error ("Task \x27" ++ t.name ++ "\x27 depends on unknown task \x27" ++ d ++ "\x27") := by
  intro tX
  exact C7_unknown_dependency [tX] ⟨tX, by decide, "Y", by decide, by decide⟩

section ResolverLemmas

open Orchestrator

/-- Bridge between `List.contains` and membership for strings. -/
theorem contains_iff_mem_str (l : List String) (a : String) :
    l.contains a = true ↔ a ∈ l := List.elem_iff

theorem mem_insertName (c : List String) (n x : String) :
    x ∈ insertName c n ↔ x ∈ c ∨ x = n := by
  unfold insertName
  by_cases h : n ∈ c
  · simp only [if_pos h]
    constructor
    · exact Or.inl
    · rintro (hx | rfl)
      · exact hx
      · exact h
  · simp [if_neg h]

theorem subset_insertName (c : List String) (n : String) : c ⊆ insertName c n := by
  intro x hx
  exact (mem_insertName c n x).mpr (Or.inl hx)

theorem nodup_insertName (c : List String) (n : String) (h : c.Nodup) :
    (insertName c n).Nodup := by
  unfold insertName
  by_cases hn : n ∈ c
  · simpa [if_pos hn]
  · rw [if_neg hn, List.nodup_append]
    exact ⟨h, List.nodup_singleton n, fun a ha hb => hn ((List.mem_singleton.mp hb) ▸ ha)⟩

theorem length_le_insertName (c : List String) (n : String) :
    c.length ≤ (insertName c n).length := by
  unfold insertName
  by_cases hn : n ∈ c <;> simp [hn]

theorem length_insertName_of_not_mem (c : List String) (n : String) (h : n ∉ c) :
    (insertName c n).length = c.length + 1 := by
  simp [insertName, if_neg h]

theorem mem_insertNames (c : List String) (b : List TaskDefinition) (x : String) :
    x ∈ insertNames c b ↔ x ∈ c ∨ ∃ t ∈ b, t.name = x := by
  induction b generalizing c with
  | nil => simp [insertNames]
  | cons t b ih =>
    show x ∈ insertNames (insertName c t.name) b ↔ _
    rw [ih, mem_insertName]
    constructor
    · rintro ((hx | rfl) | ⟨u, hu, rfl⟩)
      · exact Or.inl hx
      · exact Or.inr ⟨t, List.mem_cons_self t b, rfl⟩
      · exact Or.inr ⟨u, List.mem_cons_of_mem t hu, rfl⟩
    · rintro (hx | ⟨u, hu, rfl⟩)
      · exact Or.inl (Or.inl hx)
      · rcases List.mem_cons.mp hu with rfl | hub
        · exact Or.inl (Or.inr rfl)
        · exact Or.inr ⟨u, hub, rfl⟩

theorem subset_insertNames (c : List String) (b : List TaskDefinition) :
    c ⊆ insertNames c b := by
  intro x hx
  exact (mem_insertNames c b x).mpr (Or.inl hx)

theorem nodup_insertNames (c : List String) (b : List TaskDefinition) (h : c.Nodup) :
    (insertNames c b).Nodup := by
  induction b generalizing c with
  | nil => exact h
  | cons t b ih => exact ih _ (nodup_insertName c t.name h)

theorem length_le_insertNames (c : List String) (b : List TaskDefinition) :
    c.length ≤ (insertNames c b).length := by
  induction b generalizing c with
  | nil => exact le_refl _
  | cons t b ih => exact le_trans (length_le_insertName c t.name) (ih _)

theorem insertName_eq_append (c : List String) (n : String) :
    ∃ s, insertName c n = c ++ s := by
  unfold insertName
  by_cases hn : n ∈ c
  · exact ⟨[], by simp [if_pos hn]⟩
  · exact ⟨[n], by simp [if_neg hn]⟩

theorem insertNames_eq_append (b : List TaskDefinition) :
    ∀ c : List String, ∃ s, insertNames c b = c ++ s := by
  induction b with
  | nil => exact fun c => ⟨[], by simp [insertNames]⟩
  | cons u b ih =>
    intro c
    obtain ⟨s1, h1⟩ := ih (insertName c u.name)
    obtain ⟨s0, h0⟩ := insertName_eq_append c u.name
    refine ⟨s0 ++ s1, ?_⟩
    show insertNames (insertName c u.name) b = _
    rw [h1, h0, List.append_assoc]

theorem length_lt_insertNames (c : List String) (b : List TaskDefinition)
    (t : TaskDefinition) (ht : t ∈ b) (hn : t.name ∉ c) :
    c.length < (insertNames c b).length := by
  obtain ⟨s, hs⟩ := insertNames_eq_append b c
  have hmem : t.name ∈ insertNames c b :=
    (mem_insertNames c b t.name).mpr (Or.inr ⟨t, ht, rfl⟩)
  rw [hs] at hmem
  rcases List.mem_append.mp hmem with hc | hsmem
  · exact absurd hc hn
  · have : s ≠ [] := List.ne_nil_of_mem hsmem
    rw [hs, List.length_append]
    have : 0 < s.length := List.length_pos.mpr this
    omega

theorem completedAfter_nil (c : List String) : completedAfter c [] = c := rfl

theorem completedAfter_cons (c : List String) (b : List TaskDefinition)
    (bs : List (List TaskDefinition)) :
    completedAfter c (b :: bs) = completedAfter (insertNames c b) bs := rfl

theorem mem_completedAfter (c : List String) (bs : List (List TaskDefinition)) (x : String) :
    x ∈ completedAfter c bs ↔ x ∈ c ∨ ∃ b ∈ bs, ∃ t ∈ b, t.name = x := by
  induction bs generalizing c with
  | nil => simp [completedAfter]
  | cons b bs ih =>
    rw [completedAfter_cons, ih, mem_insertNames]
    constructor
    · rintro ((hx | ⟨t, htb, rfl⟩) | ⟨b', hb', t, htb', rfl⟩)
      · exact Or.inl hx
      · exact Or.inr ⟨b, List.mem_cons_self b bs, t, htb, rfl⟩
      · exact Or.inr ⟨b', List.mem_cons_of_mem b hb', t, htb', rfl⟩
    · rintro (hx | ⟨b', hb', t, htb', rfl⟩)
      · exact Or.inl (Or.inl hx)
      · rcases List.mem_cons.mp hb' with rfl | hbb
        · exact Or.inl (Or.inr ⟨t, htb', rfl⟩)
        · exact Or.inr ⟨b', hbb, t, htb', rfl⟩

theorem nodup_completedAfter (c : List String) (bs : List (List TaskDefinition))
    (h : c.Nodup) : (completedAfter c bs).Nodup := by
  induction bs generalizing c with
  | nil => exact h
  | cons b bs ih => exact ih _ (nodup_insertNames c b h)

theorem mem_readyTasks (tds : List TaskDefinition) (c : List String) (t : TaskDefinition) :
    t ∈ readyTasks tds c ↔ t ∈ tds ∧ t.name ∉ c ∧ ∀ d ∈ t.dependencies, d ∈ c := by
  unfold readyTasks
  rw [List.mem_filter, Bool.and_eq_true, Bool.not_eq_true', List.all_eq_true]
  constructor
  · rintro ⟨h1, h2, h3⟩
    refine ⟨h1, ?_, ?_⟩
    · intro hc
      rw [(contains_iff_mem_str c t.name).mpr hc] at h2
      cases h2
    · intro d hd
      exact (contains_iff_mem_str c d).mp (h3 d hd)
  · rintro ⟨h1, h2, h3⟩
    refine ⟨h1, ?_, ?_⟩
    · rw [Bool.eq_false_iff]
      intro hc
      exact h2 ((contains_iff_mem_str c t.name).mp hc)
    · intro d hd
      exact (contains_iff_mem_str c d).mpr (h3 d hd)

theorem readyTasks_sublist (tds : List TaskDefinition) (c : List String) :
    (readyTasks tds c).Sublist tds := List.filter_sublist tds

end ResolverLemmas

section ResolveLoopLemmas

open Orchestrator

/-- Characterization of a successful `resolveLoop` run: every emitted batch
is exactly the ready filter at its stage's `completed` set, and the final
`completed` set has at least as many names as there are tasks. -/
theorem resolveLoop_ok_spec (tds : List TaskDefinition) :
    ∀ (fuel : Nat) (c : List String) (bs : List (List TaskDefinition)),
    resolveLoop tds fuel c = .ok bs →
    (∀ i (hi : i < bs.length),
        bs.get ⟨i, hi⟩ = readyTasks tds (completedAfter c (bs.take i))) ∧
    tds.length ≤ (completedAfter c bs).length := by
  intro fuel
  induction fuel with
  | zero =>
    intro c bs h
    simp only [resolveLoop] at h
    split at h
    · split at h <;> exact absurd h (by simp)
    · rename_i hguard
      have hbs : bs = [] := (Except.ok.inj h).symm
      subst hbs
      refine ⟨fun i hi => absurd hi (by simp), ?_⟩
      rw [completedAfter_nil]
      omega
  | succ fuel ih =>
    intro c bs h
    simp only [resolveLoop] at h
    split at h
    · split at h
      · exact absurd h (by simp)
      · rename_i hguard hne
        cases hrec : resolveLoop tds fuel (insertNames c (readyTasks tds c)) with
        | error e => rw [hrec] at h; exact absurd h (by simp [Except.map])
        | ok bs' =>
          rw [hrec] at h
          simp only [Except.map] at h
          have hbs : bs = readyTasks tds c :: bs' := (Except.ok.inj h).symm
          subst hbs
          obtain ⟨ih1, ih2⟩ := ih _ _ hrec
          constructor
          · intro i hi
            match i with
            | 0 => rfl
            | Nat.succ j =>
              have hj : j < bs'.length := by
                simpa using hi
              have := ih1 j hj
              simpa [List.take_succ_cons, completedAfter_cons] using this
          · simpa [completedAfter_cons] using ih2
    · rename_i hguard
      have hbs : bs = [] := (Except.ok.inj h).symm
      subst hbs
      refine ⟨fun i hi => absurd hi (by simp), ?_⟩
      rw [completedAfter_nil]
      omega

/-- With enough fuel, `resolveLoop` either succeeds or reports the circular
dependency; the fuel-exhaustion branch is unreachable. -/
theorem resolveLoop_ok_or_circular (tds : List TaskDefinition) :
    ∀ (fuel : Nat) (c : List String), tds.length ≤ fuel + c.length →
    (∃ bs, resolveLoop tds fuel c = .ok bs) ∨
    resolveLoop tds fuel c = .error "Circular dependency detected in tasks" := by
  intro fuel
  induction fuel with
  | zero =>
    intro c hfc
    simp only [resolveLoop]
    have : ¬(c.length < tds.length) := by omega
    rw [if_neg this]
    exact Or.inl ⟨[], rfl⟩
  | succ fuel ih =>
    intro c hfc
    simp only [resolveLoop]
    by_cases hguard : c.length < tds.length
    · rw [if_pos hguard]
      by_cases hempty : (readyTasks tds c).isEmpty
      · rw [if_pos hempty]
        exact Or.inr rfl
      · rw [if_neg hempty]
        have hne : readyTasks tds c ≠ [] := by
          intro hc
          rw [hc] at hempty
          exact hempty rfl
        obtain ⟨t, ht⟩ := List.exists_mem_of_ne_nil _ hne
        have hnotin : t.name ∉ c := ((mem_readyTasks tds c t).mp ht).2.1
        have hlt := length_lt_insertNames c (readyTasks tds c) t ht hnotin
        have hfc' : tds.length ≤ fuel + (insertNames c (readyTasks tds c)).length := by
          omega
        rcases ih _ hfc' with ⟨bs, hbs⟩ | herr
        · exact Or.inl ⟨readyTasks tds c :: bs, by rw [hbs]; rfl⟩
        · exact Or.inr (by rw [herr]; rfl)
    · rw [if_neg hguard]
      exact Or.inl ⟨[], rfl⟩

end ResolveLoopLemmas

section ResolverAcyclic

open Orchestrator

/-- Every nonempty list has an element minimizing a `Nat`-valued measure. -/
theorem exists_min_by {α : Type} (f : α → Nat) :
    ∀ l : List α, l ≠ [] → ∃ t ∈ l, ∀ u ∈ l, f t ≤ f u := by
  intro l
  induction l with
  | nil => intro h; exact absurd rfl h
  | cons a l ih =>
    intro _
    by_cases hl : l = []
    · subst hl
      exact ⟨a, List.mem_cons_self a [], fun u hu => by
        rcases List.mem_cons.mp hu with rfl | h
        · exact le_refl _
        · exact absurd h (List.not_mem_nil u)⟩
    · obtain ⟨t, ht, hmin⟩ := ih hl
      by_cases hat : f a ≤ f t
      · refine ⟨a, List.mem_cons_self a l, fun u hu => ?_⟩
        rcases List.mem_cons.mp hu with rfl | h
        · exact le_refl _
        · exact le_trans hat (hmin u h)
      · refine ⟨t, List.mem_cons_of_mem a ht, fun u hu => ?_⟩
        rcases List.mem_cons.mp hu with rfl | h
        · omega
        · exact hmin u h

/-- A duplicate-free list contained in another list is no longer than it. -/
theorem nodup_subset_length_le (l1 l2 : List String) (h1 : l1.Nodup)
    (hsub : ∀ x ∈ l1, x ∈ l2) : l1.length ≤ l2.length := by
  have hfs : l1.toFinset ⊆ l2.toFinset := by
    intro x hx
    rw [List.mem_toFinset] at hx ⊢
    exact hsub x hx
  calc l1.length = l1.toFinset.card := (List.toFinset_card_of_nodup h1).symm
    _ ≤ l2.toFinset.card := Finset.card_le_card hfs
    _ ≤ l2.length := List.toFinset_card_le l2

/-- Two tasks of a set with duplicate-free names and equal names are equal. -/
theorem name_inj_of_nodup (tds : List TaskDefinition)
    (h : (taskNames tds).Nodup) :
    ∀ t ∈ tds, ∀ u ∈ tds, t.name = u.name → t = u := by
  induction tds with
  | nil => intro t ht; exact absurd ht (List.not_mem_nil t)
  | cons a l ih =>
    have hh : a.name ∉ l.map (fun t => t.name) ∧ (taskNames l).Nodup := by
      rw [taskNames, List.map_cons, List.nodup_cons] at h
      exact h
    intro t ht u hu heq
    rcases List.mem_cons.mp ht with rfl | htl
    · rcases List.mem_cons.mp hu with rfl | hul
      · rfl
      · exact absurd (List.mem_map.mpr ⟨u, hul, heq.symm⟩) hh.1
    · rcases List.mem_cons.mp hu with rfl | hul
      · exact absurd (List.mem_map.mpr ⟨t, htl, heq⟩) hh.1
      · exact ih hh.2 t htl u hul heq

/-- Under distinct names, valid dependency names and a strictly decreasing
rank, some task is ready whenever tasks remain unplaced. -/
theorem readyTasks_ne_nil (tds : List TaskDefinition)
    (hNodup : (taskNames tds).Nodup)
    (hValid : ∀ t ∈ tds, ∀ d ∈ t.dependencies, d ∈ taskNames tds)
    (rank : String → Nat)
    (hrank : ∀ t ∈ tds, ∀ d ∈ t.dependencies, rank d < rank t.name)
    (c : List String) (hlt : c.length < tds.length) :
    readyTasks tds c ≠ [] := by
  have hrem : ∃ t ∈ tds, t.name ∉ c := by
    by_contra hall
    push_neg at hall
    have hsub : ∀ x ∈ taskNames tds, x ∈ c := by
      intro x hx
      obtain ⟨t, ht, rfl⟩ := List.mem_map.mp hx
      exact hall t ht
    have := nodup_subset_length_le (taskNames tds) c hNodup hsub
    rw [taskNames, List.length_map] at this
    omega
  obtain ⟨t0, ht0, hn0⟩ := hrem
  have hremne : tds.filter (fun t => !c.contains t.name) ≠ [] := by
    apply List.ne_nil_of_mem
    refine List.mem_filter.mpr ⟨ht0, ?_⟩
    rw [Bool.not_eq_true', Bool.eq_false_iff]
    intro hc
    exact hn0 ((contains_iff_mem_str c t0.name).mp hc)
  obtain ⟨t, htmem, hmin⟩ :=
    exists_min_by (fun u => rank u.name) (tds.filter (fun u => !c.contains u.name)) hremne
  have htds : t ∈ tds := (List.mem_filter.mp htmem).1
  have htn : t.name ∉ c := by
    have hp := (List.mem_filter.mp htmem).2
    rw [Bool.not_eq_true', Bool.eq_false_iff] at hp
    intro hc
    exact hp ((contains_iff_mem_str c t.name).mpr hc)
  have hdeps : ∀ d ∈ t.dependencies, d ∈ c := by
    intro d hd
    by_contra hdc
    obtain ⟨td, htd, hdn⟩ := List.mem_map.mp (hValid t htds d hd)
    have htdrem : td ∈ tds.filter (fun u => !c.contains u.name) := by
      refine List.mem_filter.mpr ⟨htd, ?_⟩
      rw [Bool.not_eq_true', Bool.eq_false_iff]
      intro hc
      exact hdc (hdn ▸ (contains_iff_mem_str c td.name).mp hc)
    have h1 := hmin td htdrem
    have h2 := hrank t htds d hd
    rw [hdn] at h1
    omega
  exact List.ne_nil_of_mem ((mem_readyTasks tds c t).mpr ⟨htds, htn, hdeps⟩)

/-- Under the same hypotheses, `resolveLoop` never reports a circular
dependency. -/
theorem resolveLoop_ne_circular (tds : List TaskDefinition)
    (hNodup : (taskNames tds).Nodup)
    (hValid : ∀ t ∈ tds, ∀ d ∈ t.dependencies, d ∈ taskNames tds)
    (rank : String → Nat)
    (hrank : ∀ t ∈ tds, ∀ d ∈ t.dependencies, rank d < rank t.name) :
    ∀ (fuel : Nat) (c : List String),
    resolveLoop tds fuel c ≠ .error "Circular dependency detected in tasks" := by
  intro fuel
  induction fuel with
  | zero =>
    intro c
    simp only [resolveLoop]
    by_cases hguard : c.length < tds.length
    · rw [if_pos hguard]
      have hne := readyTasks_ne_nil tds hNodup hValid rank hrank c hguard
      have : (readyTasks tds c).isEmpty = false := by
        rw [List.isEmpty_eq_false_iff_exists_mem]
        obtain ⟨t, ht⟩ := List.exists_mem_of_ne_nil _ hne
        exact ⟨t, ht⟩
      rw [this]
      simp
    · rw [if_neg hguard]
      simp
  | succ fuel ih =>
    intro c
    simp only [resolveLoop]
    by_cases hguard : c.length < tds.length
    · rw [if_pos hguard]
      have hne := readyTasks_ne_nil tds hNodup hValid rank hrank c hguard
      have hemp : (readyTasks tds c).isEmpty = false := by
        rw [List.isEmpty_eq_false_iff_exists_mem]
        obtain ⟨t, ht⟩ := List.exists_mem_of_ne_nil _ hne
        exact ⟨t, ht⟩
      rw [hemp]
      simp only [Bool.false_eq_true, if_false]
      cases hrec : resolveLoop tds fuel (insertNames c (readyTasks tds c)) with
      | error e =>
        intro hc
        simp only [Except.map] at hc
        exact ih _ (by rw [hrec, Except.error.inj hc])
      | ok bs => simp [Except.map]
    · rw [if_neg hguard]
      simp

/-- Under distinct names, valid dependencies and acyclicity, the resolver
succeeds. -/
theorem resolve_ok_of_acyclic (tds : List TaskDefinition)
    (hNodup : (taskNames tds).Nodup)
    (hValid : ∀ t ∈ tds, ∀ d ∈ t.dependencies, d ∈ taskNames tds)
    (hAcyclic : Acyclic tds) :
    ∃ bs, resolve_dependencies tds = .ok bs := by
  obtain ⟨rank, hrank⟩ := hAcyclic
  rcases resolveLoop_ok_or_circular tds tds.length [] (by simp) with hok | herr
  · exact hok
  · exact absurd herr (resolveLoop_ne_circular tds hNodup hValid rank hrank tds.length [])

end ResolverAcyclic

section ResolveOkFacts

open Orchestrator

/-- An indexed batch belongs to any longer prefix. -/
theorem get_mem_take {α : Type} (l : List α) (i j : Nat) (hi : i < l.length)
    (hij : i < j) : l.get ⟨i, hi⟩ ∈ l.take j := by
  have hmin : (l.take j).length = min j l.length := List.length_take j l
  have hlen : i < (l.take j).length := by omega
  have : (l.take j).get ⟨i, hlen⟩ = l.get ⟨i, hi⟩ := List.get_take' l
  rw [← this]
  exact List.get_mem _ _ _

/-- A member of a prefix sits at an index below the prefix length. -/
theorem mem_take_to_get {α : Type} (l : List α) (j : Nat) (b : α) :
    b ∈ l.take j → ∃ i, ∃ hi : i < l.length, i < j ∧ l.get ⟨i, hi⟩ = b := by
  intro hb
  obtain ⟨i, hi⟩ := List.mem_iff_get.mp hb
  have hmin : (l.take j).length = min j l.length := List.length_take j l
  have hlt : i.val < (l.take j).length := i.isLt
  have hlen : i.val < l.length := by omega
  have hij : i.val < j := by omega
  refine ⟨i.val, hlen, hij, ?_⟩
  rw [← hi]
  exact (List.get_take' l).symm

/-- Names in the stage-`j` completed set are exactly the names of tasks
placed in batches before `j`. -/
theorem mem_stage_iff (bs : List (List TaskDefinition)) (j : Nat) (x : String) :
    x ∈ completedAfter [] (bs.take j) ↔
    ∃ i, ∃ hi : i < bs.length, i < j ∧ ∃ t ∈ bs.get ⟨i, hi⟩, t.name = x := by
  rw [mem_completedAfter]
  constructor
  · rintro (hx | ⟨b, hb, t, htb, rfl⟩)
    · exact absurd hx (List.not_mem_nil x)
    · obtain ⟨i, hi, hij, hget⟩ := mem_take_to_get bs j b hb
      exact ⟨i, hi, hij, t, hget ▸ htb, rfl⟩
  · rintro ⟨i, hi, hij, t, htb, rfl⟩
    exact Or.inr ⟨bs.get ⟨i, hi⟩, get_mem_take bs i j hi hij, t, htb, rfl⟩

/-- The batches of a successful resolution are filters of the task list. -/
theorem resolve_ok_batch_eq (tds : List TaskDefinition) (bs : List (List TaskDefinition))
    (h : resolve_dependencies tds = .ok bs) :
    ∀ i (hi : i < bs.length),
      bs.get ⟨i, hi⟩ = readyTasks tds (completedAfter [] (bs.take i)) :=
  (resolveLoop_ok_spec tds tds.length [] bs h).1

/-- A successful resolution forces the task names to be duplicate-free,
and every task name to appear in the final completed set. -/
theorem resolve_ok_names (tds : List TaskDefinition) (bs : List (List TaskDefinition))
    (h : resolve_dependencies tds = .ok bs) :
    (taskNames tds).Nodup ∧ ∀ x ∈ taskNames tds, x ∈ completedAfter [] bs := by
  obtain ⟨hbatch, hlen⟩ := resolveLoop_ok_spec tds tds.length [] bs h
  have hnodupC : (completedAfter [] bs).Nodup := nodup_completedAfter [] bs List.nodup_nil
  have hsubC : ∀ x ∈ completedAfter [] bs, x ∈ taskNames tds := by
    intro x hx
    rcases (mem_completedAfter [] bs x).mp hx with hn | ⟨b, hb, t, htb, rfl⟩
    · exact absurd hn (List.not_mem_nil x)
    · obtain ⟨i, hget⟩ := List.mem_iff_get.mp hb
      have := hbatch i.val i.isLt
      rw [show bs.get ⟨i.val, i.isLt⟩ = bs.get i from rfl, hget] at this
      have htds : t ∈ tds := (readyTasks_sublist tds _).subset (this ▸ htb)
      exact List.mem_map.mpr ⟨t, htds, rfl⟩
  have hC_le : (completedAfter [] bs).length ≤ (taskNames tds).length :=
    nodup_subset_length_le _ _ hnodupC hsubC
  have hnames_len : (taskNames tds).length = tds.length := List.length_map tds _
  have hcard1 : (completedAfter [] bs).toFinset.card = (completedAfter [] bs).length :=
    List.toFinset_card_of_nodup hnodupC
  have hfs : (completedAfter [] bs).toFinset ⊆ (taskNames tds).toFinset := by
    intro x hx
    rw [List.mem_toFinset] at hx ⊢
    exact hsubC x hx
  have hcard2 : (taskNames tds).toFinset.card ≤ (completedAfter [] bs).toFinset.card := by
    have h1 := List.toFinset_card_le (taskNames tds)
    omega
  have heqfs : (completedAfter [] bs).toFinset = (taskNames tds).toFinset :=
    Finset.eq_of_subset_of_card_le hfs hcard2
  constructor
  · have hcard3 : (taskNames tds).toFinset.card = (taskNames tds).length := by
      have h1 := Finset.card_le_card hfs
      have h2 := List.toFinset_card_le (taskNames tds)
      omega
    rw [List.card_toFinset] at hcard3
    have hsub := List.dedup_sublist (taskNames tds)
    have := List.Sublist.eq_of_length hsub hcard3
    exact List.dedup_eq_self.mp this
  · intro x hx
    have : x ∈ (taskNames tds).toFinset := List.mem_toFinset.mpr hx
    rw [← heqfs] at this
    exact List.mem_toFinset.mp this

/-- Every task is placed in some batch of a successful resolution. -/
theorem resolve_ok_placed (tds : List TaskDefinition) (bs : List (List TaskDefinition))
    (h : resolve_dependencies tds = .ok bs) :
    ∀ t ∈ tds, ∃ i, ∃ hi : i < bs.length, t ∈ bs.get ⟨i, hi⟩ := by
  obtain ⟨hnodup, hall⟩ := resolve_ok_names tds bs h
  intro t ht
  have hx : t.name ∈ completedAfter [] bs :=
    hall t.name (List.mem_map.mpr ⟨t, ht, rfl⟩)
  rcases (mem_completedAfter [] bs t.name).mp hx with hn | ⟨b, hb, t', htb', hname⟩
  · exact absurd hn (List.not_mem_nil _)
  · obtain ⟨i, hget⟩ := List.mem_iff_get.mp hb
    have hbatch := resolve_ok_batch_eq tds bs h i.val i.isLt
    have ht'tds : t' ∈ tds := by
      have : t' ∈ bs.get i := hget ▸ htb'
      rw [show bs.get i = bs.get ⟨i.val, i.isLt⟩ from rfl, hbatch] at this
      exact (readyTasks_sublist tds _).subset this
    have : t' = t := name_inj_of_nodup tds hnodup t' ht'tds t ht hname
    subst this
    exact ⟨i.val, i.isLt, hget ▸ htb'⟩

/-- No task is placed in two different batches. -/
theorem resolve_ok_unique (tds : List TaskDefinition) (bs : List (List TaskDefinition))
    (h : resolve_dependencies tds = .ok bs) :
    ∀ i j (hi : i < bs.length) (hj : j < bs.length) t,
      t ∈ bs.get ⟨i, hi⟩ → t ∈ bs.get ⟨j, hj⟩ → i = j := by
  have key : ∀ i j (hi : i < bs.length) (hj : j < bs.length) t,
      t ∈ bs.get ⟨i, hi⟩ → t ∈ bs.get ⟨j, hj⟩ → i < j → False := by
    intro i j hi hj t hti htj hij
    have hbj := resolve_ok_batch_eq tds bs h j hj
    rw [hbj] at htj
    have hnotin := ((mem_readyTasks tds _ t).mp htj).2.1
    exact hnotin ((mem_stage_iff bs j t.name).mpr ⟨i, hi, hij, t, hti, rfl⟩)
  intro i j hi hj t hti htj
  rcases lt_trichotomy i j with hij | heq | hji
  · exact absurd (key i j hi hj t hti htj hij) (fun hc => hc)
  · exact heq
  · exact absurd (key j i hj hi t htj hti hji) (fun hc => hc)

/-- Every dependency of a placed task is the name of a task placed in a
strictly earlier batch. -/
theorem resolve_ok_dep_earlier (tds : List TaskDefinition) (bs : List (List TaskDefinition))
    (h : resolve_dependencies tds = .ok bs) :
    ∀ i (hi : i < bs.length) t, t ∈ bs.get ⟨i, hi⟩ →
    ∀ d ∈ t.dependencies,
      ∃ j, ∃ hj : j < bs.length, j < i ∧ ∃ t' ∈ bs.get ⟨j, hj⟩, t'.name = d := by
  intro i hi t ht d hd
  have hbi := resolve_ok_batch_eq tds bs h i hi
  rw [hbi] at ht
  have hdC := ((mem_readyTasks tds _ t).mp ht).2.2 d hd
  obtain ⟨j, hj, hij, t', ht', hname⟩ := (mem_stage_iff bs i d).mp hdC
  exact ⟨j, hj, hij, t', ht', hname⟩

end ResolveOkFacts

section ResolverPerm

open Orchestrator

/-- When every task name is already in `c`, nothing is left to filter. -/
theorem filter_not_contains_eq_nil (tds : List TaskDefinition) (c : List String)
    (hsup : ∀ x ∈ taskNames tds, x ∈ c) :
    tds.filter (fun t => !c.contains t.name) = [] := by
  rw [List.filter_eq_nil_iff]
  intro t ht
  have hc : c.contains t.name = true :=
    (contains_iff_mem_str c t.name).mpr (hsup t.name (List.mem_map.mpr ⟨t, ht, rfl⟩))
  intro hcon
  rw [hc] at hcon
  exact absurd hcon (by decide)

/-- The flattened batches of a successful run are a permutation of the
tasks not yet placed when the run started. -/
theorem resolveLoop_flatten_perm (tds : List TaskDefinition)
    (hNodup : (taskNames tds).Nodup) :
    ∀ (fuel : Nat) (c : List String) (bs : List (List TaskDefinition)),
    resolveLoop tds fuel c = .ok bs → c.Nodup → (∀ x ∈ c, x ∈ taskNames tds) →
    bs.flatten.Perm (tds.filter (fun t => !c.contains t.name)) := by
  intro fuel
  induction fuel with
  | zero =>
    intro c bs h hcnd hcsub
    simp only [resolveLoop] at h
    split at h
    · split at h <;> exact absurd h (by simp)
    · rename_i hguard
      have hbs : bs = [] := (Except.ok.inj h).symm
      subst hbs
      have hsup : ∀ x ∈ taskNames tds, x ∈ c := by
        have hclen : tds.length ≤ c.length := by omega
        have hfs : c.toFinset ⊆ (taskNames tds).toFinset := by
          intro x hx
          rw [List.mem_toFinset] at hx ⊢
          exact hcsub x hx
        have hcard : (taskNames tds).toFinset.card ≤ c.toFinset.card := by
          have h1 := List.toFinset_card_le (taskNames tds)
          have h2 := List.toFinset_card_of_nodup hcnd
          have h3 : (taskNames tds).length = tds.length := List.length_map tds _
          omega
        have heq := Finset.eq_of_subset_of_card_le hfs hcard
        intro x hx
        have : x ∈ c.toFinset := by
          rw [heq]
          exact List.mem_toFinset.mpr hx
        exact List.mem_toFinset.mp this
      rw [filter_not_contains_eq_nil tds c hsup]
      simp
  | succ fuel ih =>
    intro c bs h hcnd hcsub
    simp only [resolveLoop] at h
    split at h
    · split at h
      · exact absurd h (by simp)
      · rename_i hguard hne
        cases hrec : resolveLoop tds fuel (insertNames c (readyTasks tds c)) with
        | error e => rw [hrec] at h; exact absurd h (by simp [Except.map])
        | ok bs' =>
          rw [hrec] at h
          simp only [Except.map] at h
          have hbs : bs = readyTasks tds c :: bs' := (Except.ok.inj h).symm
          subst hbs
          have hc'nd : (insertNames c (readyTasks tds c)).Nodup :=
            nodup_insertNames c _ hcnd
          have hc'sub : ∀ x ∈ insertNames c (readyTasks tds c), x ∈ taskNames tds := by
            intro x hx
            rcases (mem_insertNames c _ x).mp hx with hxc | ⟨t, htr, rfl⟩
            · exact hcsub x hxc
            · have : t ∈ tds := (readyTasks_sublist tds c).subset htr
              exact List.mem_map.mpr ⟨t, this, rfl⟩
          have hih := ih _ _ hrec hc'nd hc'sub
          have hA : readyTasks tds c
              = (tds.filter (fun t => !c.contains t.name)).filter
                  (fun t => t.dependencies.all (fun d => c.contains d)) := by
            rw [List.filter_filter]
            unfold readyTasks
            apply List.filter_congr
            intro t _
            exact Bool.and_comm _ _
          have hB : tds.filter (fun t => !(insertNames c (readyTasks tds c)).contains t.name)
              = (tds.filter (fun t => !c.contains t.name)).filter
                  (fun t => !(t.dependencies.all (fun d => c.contains d))) := by
            rw [List.filter_filter]
            apply List.filter_congr
            intro t ht
            by_cases h1 : t.name ∈ insertNames c (readyTasks tds c)
            · rw [(contains_iff_mem_str _ t.name).mpr h1]
              rcases (mem_insertNames c _ t.name).mp h1 with hxc | ⟨t', htr', hname⟩
              · rw [(contains_iff_mem_str c t.name).mpr hxc]
                simp
              · have ht'tds : t' ∈ tds := (readyTasks_sublist tds c).subset htr'
                have : t' = t := name_inj_of_nodup tds hNodup t' ht'tds t ht hname
                subst this
                have hall : t'.dependencies.all (fun d => c.contains d) = true := by
                  rw [List.all_eq_true]
                  intro d hd
                  exact (contains_iff_mem_str c d).mpr
                    (((mem_readyTasks tds c t').mp htr').2.2 d hd)
                rw [hall]
                simp
            · have hf : (insertNames c (readyTasks tds c)).contains t.name = false := by
                rw [Bool.eq_false_iff]
                intro hc
                exact h1 ((contains_iff_mem_str _ t.name).mp hc)
              have hnc : t.name ∉ c := fun hc => h1 (subset_insertNames c _ hc)
              have hncf : c.contains t.name = false := by
                rw [Bool.eq_false_iff]
                intro hc
                exact hnc ((contains_iff_mem_str c t.name).mp hc)
              have hall : t.dependencies.all (fun d => c.contains d) = false := by
                rw [Bool.eq_false_iff]
                intro hall
                apply h1
                refine (mem_insertNames c _ t.name).mpr (Or.inr ⟨t, ?_, rfl⟩)
                refine (mem_readyTasks tds c t).mpr ⟨ht, hnc, ?_⟩
                intro d hd
                exact (contains_iff_mem_str c d).mp (List.all_eq_true.mp hall d hd)
              rw [hf, hall, hncf]
              rfl
          show (readyTasks tds c ++ bs'.flatten).Perm _
          refine List.Perm.trans (List.Perm.append_left _ hih) ?_
          rw [hB, hA]
          exact List.filter_append_perm _ _
    · rename_i hguard
      have hbs : bs = [] := (Except.ok.inj h).symm
      subst hbs
      have hsup : ∀ x ∈ taskNames tds, x ∈ c := by
        have hclen : tds.length ≤ c.length := by omega
        have hfs : c.toFinset ⊆ (taskNames tds).toFinset := by
          intro x hx
          rw [List.mem_toFinset] at hx ⊢
          exact hcsub x hx
        have hcard : (taskNames tds).toFinset.card ≤ c.toFinset.card := by
          have h1 := List.toFinset_card_le (taskNames tds)
          have h2 := List.toFinset_card_of_nodup hcnd
          have h3 : (taskNames tds).length = tds.length := List.length_map tds _
          omega
        have heq := Finset.eq_of_subset_of_card_le hfs hcard
        intro x hx
        have : x ∈ c.toFinset := by
          rw [heq]
          exact List.mem_toFinset.mpr hx
        exact List.mem_toFinset.mp this
      rw [filter_not_contains_eq_nil tds c hsup]
      simp

/-- The flattened batches of a successful resolution are a permutation of
the whole task list. -/
theorem resolve_ok_flatten_perm (tds : List TaskDefinition)
    (bs : List (List TaskDefinition)) (h : resolve_dependencies tds = .ok bs) :
    bs.flatten.Perm tds := by
  have hNodup := (resolve_ok_names tds bs h).1
  have hperm := resolveLoop_flatten_perm tds hNodup tds.length [] bs h
    List.nodup_nil (fun x hx => absurd hx (List.not_mem_nil x))
  have : tds.filter (fun t => !([] : List String).contains t.name) = tds := by
    have : ∀ t ∈ tds, (!([] : List String).contains t.name) = true := by
      intro t _
      rfl
    rw [List.filter_eq_self.mpr this]
  rw [this] at hperm
  exact hperm

end ResolverPerm

/-- The names placed in batches before stage `j` are the stage-`j`
completed set. -/
theorem mem_placedBefore (bs : List (List Orchestrator.TaskDefinition)) (j : Nat) (x : String) :
    x ∈ (bs.take j).flatten.map (fun u => u.name) ↔
    x ∈ Orchestrator.completedAfter [] (bs.take j) := by
  rw [mem_completedAfter]
  constructor
  · intro hx
    obtain ⟨t, ht, rfl⟩ := List.mem_map.mp hx
    obtain ⟨b, hb, htb⟩ := List.mem_flatten.mp ht
    exact Or.inr ⟨b, hb, t, htb, rfl⟩
  · rintro (hx | ⟨b, hb, t, htb, rfl⟩)
    · exact absurd hx (List.not_mem_nil x)
    · exact List.mem_map.mpr ⟨t, List.mem_flatten.mpr ⟨b, hb, htb⟩, rfl⟩

/-- C4: for an acyclic task set with duplicate-free names and valid
dependency names, the resolver succeeds and its batches flatten to a
permutation of the task set (union exactly the task set, each task exactly
once), every task's batch index strictly exceeds the batch index of each
of its dependencies, every task sits in the earliest batch whose preceding
batches already satisfy all its dependencies, and each batch preserves the
input order (it is a sublist of the task list). -/
theorem C4_resolver_batches (tds : List Orchestrator.TaskDefinition)
    (hNodup : (Orchestrator.taskNames tds).Nodup)
    (hValid : ∀ t ∈ tds, ∀ d ∈ t.dependencies, d ∈ Orchestrator.taskNames tds)
    (hAcyclic : Orchestrator.Acyclic tds) :
    ∃ bs, Orchestrator.resolve_dependencies tds = .ok bs ∧
      bs.flatten.Perm tds ∧
      (∀ t ∈ tds, ∃ i, ∃ hi : i < bs.length, t ∈ bs.get ⟨i, hi⟩) ∧
      (∀ i j (hi : i < bs.length) (hj : j < bs.length) t,
        t ∈ bs.get ⟨i, hi⟩ → t ∈ bs.get ⟨j, hj⟩ → i = j) ∧
      (∀ i (hi : i < bs.length) t, t ∈ bs.get ⟨i, hi⟩ →
        ∀ d ∈ t.dependencies, ∀ j (hj : j < bs.length) t',
          t' ∈ bs.get ⟨j, hj⟩ → t'.name = d → j < i) ∧
      (∀ i (hi : i < bs.length) t, t ∈ bs.get ⟨i, hi⟩ →
        ∀ j, (∀ d ∈ t.dependencies,
          d ∈ ((bs.take j).flatten.map (fun u => u.name))) → i ≤ j) ∧
      (∀ i (hi : i < bs.length), (bs.get ⟨i, hi⟩).Sublist tds) := by
  obtain ⟨bs, hok⟩ := resolve_ok_of_acyclic tds hNodup hValid hAcyclic
  have hbatch := resolve_ok_batch_eq tds bs hok
  have hsub : ∀ i (hi : i < bs.length), (bs.get ⟨i, hi⟩).Sublist tds := by
    intro i hi
    rw [hbatch i hi]
    exact readyTasks_sublist tds _
  refine ⟨bs, hok, resolve_ok_flatten_perm tds bs hok, resolve_ok_placed tds bs hok,
    resolve_ok_unique tds bs hok, ?_, ?_, hsub⟩
  · intro i hi t ht d hd j hj t' ht' hname
    obtain ⟨j0, hj0, hj0i, t'', ht'', hname''⟩ :=
      resolve_ok_dep_earlier tds bs hok i hi t ht d hd
    have ht'tds : t' ∈ tds := (hsub j hj).subset ht'
    have ht''tds : t'' ∈ tds := (hsub j0 hj0).subset ht''
    have : t'' = t' :=
      name_inj_of_nodup tds hNodup t'' ht''tds t' ht'tds (hname'' ▸ hname.symm ▸ rfl)
    subst this
    have := resolve_ok_unique tds bs hok j0 j hj0 hj t'' ht'' ht'
    omega
  · intro i hi t ht j hdeps
    by_contra hcon
    push_neg at hcon
    have hji : j < i := hcon
    have hjlen : j < bs.length := lt_trans hji hi
    have hti := ht
    rw [hbatch i hi] at hti
    have hnotin_i := ((mem_readyTasks tds _ t).mp hti).2.1
    have hnotin_j : t.name ∉ Orchestrator.completedAfter [] (bs.take j) := by
      intro hmem
      obtain ⟨k, hk, hkj, t0, ht0, hname0⟩ := (mem_stage_iff bs j t.name).mp hmem
      exact hnotin_i ((mem_stage_iff bs i t.name).mpr
        ⟨k, hk, lt_trans hkj hji, t0, ht0, hname0⟩)
    have hready : t ∈ Orchestrator.readyTasks tds
        (Orchestrator.completedAfter [] (bs.take j)) := by
      refine (mem_readyTasks tds _ t).mpr ⟨((mem_readyTasks tds _ t).mp hti).1, hnotin_j, ?_⟩
      intro d hd
      exact (mem_placedBefore bs j d).mp (hdeps d hd)
    rw [← hbatch j hjlen] at hready
    have := resolve_ok_unique tds bs hok i j hi hjlen t ht hready
    omega

/-- C4 witness: for tasks `A`, `B` (depends on `A`), `C` (depends on `A`)
the resolver returns exactly `[[A], [B, C]]`, and the general theorem
applies at this input. -/
theorem C4_resolver_batches_witness :
    let tA : Orchestrator.TaskDefinition :=
      { name := "A", command := "a", prompt := "", dependencies := [], timeout := 300 }
    let tB : Orchestrator.TaskDefinition :=
      { name := "B", command := "b", prompt := "", dependencies := ["A"], timeout := 300 }
    let tC : Orchestrator.TaskDefinition :=
      { name := "C", command := "c", prompt := "", dependencies := ["A"], timeout := 300 }
    Orchestrator.resolve_dependencies [tA, tB, tC] = .ok [[tA], [tB, tC]] ∧
    ∃ bs, Orchestrator.resolve_dependencies [tA, tB, tC] = .ok bs ∧
      bs.flatten.Perm [tA, tB, tC] ∧
      (∀ t ∈ [tA, tB, tC], ∃ i, ∃ hi : i < bs.length, t ∈ bs.get ⟨i, hi⟩) ∧
      (∀ i j (hi : i < bs.length) (hj : j < bs.length) t,
        t ∈ bs.get ⟨i, hi⟩ → t ∈ bs.get ⟨j, hj⟩ → i = j) ∧
      (∀ i (hi : i < bs.length) t, t ∈ bs.get ⟨i, hi⟩ →
        ∀ d ∈ t.dependencies, ∀ j (hj : j < bs.length) t',
          t' ∈ bs.get ⟨j, hj⟩ → t'.name = d → j < i) ∧
      (∀ i (hi : i < bs.length) t, t ∈ bs.get ⟨i, hi⟩ →
        ∀ j, (∀ d ∈ t.dependencies,
          d ∈ ((bs.take j).flatten.map (fun u => u.name))) → i ≤ j) ∧
      (∀ i (hi : i < bs.length), (bs.get ⟨i, hi⟩).Sublist [tA, tB, tC]) := by
  intro tA tB tC
  refine ⟨by rfl, ?_⟩
  exact C4_resolver_batches [tA, tB, tC] (by decide) (by decide)
    ⟨fun n => if n = "A" then 0 else 1, by decide⟩

/-- The start of any dependency chain is the name of some task. -/
theorem transGen_start_task (tds : List Orchestrator.TaskDefinition) :
    ∀ x y, Relation.TransGen (Orchestrator.dependsOn tds) x y →
    ∃ t ∈ tds, t.name = x := by
  intro x y htg
  induction htg with
  | single h =>
    obtain ⟨t, ht, hn, _⟩ := h
    exact ⟨t, ht, hn⟩
  | tail _ _ ih => exact ih

/-- C6: a task set whose dependency relation contains a cycle makes the
resolver stop with the `Circular dependency detected in tasks` error — no
batches are produced — and, when validation passes, `execute` stops with
that same error, so nothing is executed for the run. -/
theorem C6_cycle_detection (tds : List Orchestrator.TaskDefinition)
    (hcycle : Orchestrator.HasCycle tds) :
    Orchestrator.resolve_dependencies tds
      = .error "Circular dependency detected in tasks" ∧
    (Orchestrator.validate_dependencies tds = .ok () →
      ∀ oracle : String → CommandOutcome,
        Orchestrator.execute tds oracle
          = .error "Circular dependency detected in tasks") := by
  have hmain : Orchestrator.resolve_dependencies tds
      = .error "Circular dependency detected in tasks" := by
    rcases resolveLoop_ok_or_circular tds tds.length [] (by simp) with ⟨bs, hok⟩ | herr
    · exfalso
      have hNodup := (resolve_ok_names tds bs hok).1
      have hsub : ∀ i (hi : i < bs.length), (bs.get ⟨i, hi⟩).Sublist tds := by
        intro i hi
        rw [resolve_ok_batch_eq tds bs hok i hi]
        exact readyTasks_sublist tds _
      obtain ⟨a, htg⟩ := hcycle
      have key : ∀ b, Relation.TransGen (Orchestrator.dependsOn tds) a b →
          ∀ i (hi : i < bs.length) t, t ∈ bs.get ⟨i, hi⟩ → t.name = a →
          ∃ j, ∃ hj : j < bs.length, j < i ∧ ∃ t', t' ∈ bs.get ⟨j, hj⟩ ∧ t'.name = b := by
        intro b htgb
        induction htgb with
        | single hedge =>
          intro i hi t ht hname
          obtain ⟨t0, ht0, hname0, hdep⟩ := hedge
          have httds : t ∈ tds := (hsub i hi).subset ht
          have heq : t0 = t :=
            name_inj_of_nodup tds hNodup t0 ht0 t httds (hname0.trans hname.symm)
          subst heq
          obtain ⟨j, hj, hij, t', ht', hn⟩ :=
            resolve_ok_dep_earlier tds bs hok i hi t0 ht _ hdep
          exact ⟨j, hj, hij, t', ht', hn⟩
        | tail hab hbc ih =>
          intro i hi t ht hname
          obtain ⟨j, hj, hij, t', ht', hnb⟩ := ih i hi t ht hname
          obtain ⟨t0, ht0, hname0, hdep⟩ := hbc
          have ht'tds : t' ∈ tds := (hsub j hj).subset ht'
          have heq : t0 = t' :=
            name_inj_of_nodup tds hNodup t0 ht0 t' ht'tds (hname0.trans hnb.symm)
          subst heq
          obtain ⟨k, hk, hkj, t'', ht'', hnc⟩ :=
            resolve_ok_dep_earlier tds bs hok j hj t0 ht' _ hdep
          exact ⟨k, hk, lt_trans hkj hij, t'', ht'', hnc⟩
      obtain ⟨t0, ht0, hn0⟩ := transGen_start_task tds a a htg
      obtain ⟨i, hi, hti⟩ := resolve_ok_placed tds bs hok t0 ht0
      obtain ⟨j, hj, hij, t', ht', hna⟩ := key a htg i hi t0 hti hn0
      have ht'tds : t' ∈ tds := (hsub j hj).subset ht'
      have heq : t' = t0 :=
        name_inj_of_nodup tds hNodup t' ht'tds t0 ht0 (hna.trans hn0.symm)
      subst heq
      have := resolve_ok_unique tds bs hok j i hj hi t' ht' hti
      omega
    · exact herr
  refine ⟨hmain, ?_⟩
  intro hval oracle
  unfold Orchestrator.execute
  rw [hval, hmain]
  rfl

/-- C6 witness: `X` depends on `Y` and `Y` on `X`; the resolver reports
the circular-dependency error and `execute` stops with it. -/
theorem C6_cycle_detection_witness :
    let tX : Orchestrator.TaskDefinition :=
      { name := "X", command := "x", prompt := "", dependencies := ["Y"], timeout := 300 }
    let tY : Orchestrator.TaskDefinition :=
      { name := "Y", command := "y", prompt := "", dependencies := ["X"], timeout := 300 }
    Orchestrator.resolve_dependencies [tX, tY]
      = .error "Circular dependency detected in tasks" ∧
    (Orchestrator.validate_dependencies [tX, tY] = .ok () →
      ∀ oracle : String → CommandOutcome,
        Orchestrator.execute [tX, tY] oracle
          = .error "Circular dependency detected in tasks") := by
  intro tX tY
  refine C6_cycle_detection [tX, tY] ⟨"X", ?_⟩
  have hxy : Orchestrator.dependsOn [tX, tY] "X" "Y" :=
    ⟨tX, by decide, rfl, by decide⟩
  have hyx : Orchestrator.dependsOn [tX, tY] "Y" "X" :=
    ⟨tY, by decide, rfl, by decide⟩
  exact Relation.TransGen.tail (Relation.TransGen.single hxy) hyx

/-- Whenever at least one task was resolved into the batches, the present
`_create_plan` raises the `TypeError` from its `Task(dependencies=...)`
construction. -/
theorem create_plan_run_nonempty (bs : List (List Orchestrator.TaskDefinition))
    (h : bs.flatten.isEmpty = false) :
    Orchestrator.create_plan_run bs
      = .error "TypeError: unexpected keyword argument \x27dependencies\x27" := by
  unfold Orchestrator.create_plan_run
  rw [h]
  rfl

/-- C5 (code bug): the claim's terminal-state discipline is what
`worker.py`/`orchestrator.py` are written to deliver, but the present
source crashes before delivering it, for every command and every outcome
(exit 0 included): the opening `append_event` of `Worker.execute_command`
(worker.py:120, before the `try`) passes a string where the present
`append_event` evaluates `event_type.value`, raising `AttributeError`
that nothing catches; every `update_worker_status` call of both callers
raises `TypeError` (no `run_id`, unexpected `last_message=`); the
`create_worker` lookup in `Worker.__init__` (worker.py:30) raises
`AttributeError`; and `_execute_task`'s exception handler re-raises
through its own string-typed `append_event`.  The worker neither reaches
`done`/100 nor an `error` report — the exception propagates. -/
theorem C5_worker_crashes_before_reporting (cmd wd : String) (timeout : Nat)
    (outcome : CommandOutcome) :
    Worker.execute_command_run cmd wd timeout outcome
      = .error "AttributeError: \x27str\x27 object has no attribute \x27value\x27" ∧
    bindKeywordCall update_worker_status_params update_worker_status_required
        update_status_call_kwargs
      = .error "TypeError: unexpected keyword argument \x27last_message\x27" ∧
    EventStoreV2.getattrEventStoreV2 "create_worker"
      = .error "AttributeError: \x27EventStoreV2\x27 object has no attribute \x27create_worker\x27" ∧
    Orchestrator.execute_task_handler_first_call
      = .error "AttributeError: \x27str\x27 object has no attribute \x27value\x27" :=
  ⟨rfl, rfl, rfl, rfl⟩

/-- C10 (code bug): the artifact-before-terminal-report trace is what
`Worker.execute_command` (worker.py:143-161) is written to produce, but in
the present source no artifact event can ever be appended: the run raises
`AttributeError` at its first statement (worker.py:120) — before the
subprocess launches, for every outcome, a completed one included — and
`report_artifact`'s own `append_event` (worker.py:68-74) raises the same
error before inserting a row. -/
theorem C10_no_artifact_event_possible (cmd wd : String) (timeout : Nat)
    (outcome : CommandOutcome) (path : String) :
    Worker.execute_command_run cmd wd timeout outcome
      = .error "AttributeError: \x27str\x27 object has no attribute \x27value\x27" ∧
    Worker.report_artifact_run path
      = .error "AttributeError: \x27str\x27 object has no attribute \x27value\x27" :=
  ⟨rfl, rfl⟩

/-- C8 (code bug): the claim's run-to-completion report is what the
orchestrator's result aggregation is written to deliver, but in the
present source every run with a nonempty, valid, resolvable task set
raises `TypeError` inside `_create_plan` (orchestrator.py:341), whose
`Task(dependencies=...)` construction (orchestrator.py:111-118) hits the
`models.Task` dataclass whose field is `deps` (models.py:84-91) — before
any batch executes, so no per-task results and no failure count are ever
returned. -/
theorem C8_run_crashes_in_create_plan (tds : List Orchestrator.TaskDefinition)
    (oracle : String → CommandOutcome) (bs : List (List Orchestrator.TaskDefinition))
    (hval : Orchestrator.validate_dependencies tds = .ok ())
    (hres : Orchestrator.resolve_dependencies tds = .ok bs)
    (hne : tds ≠ []) :
    Orchestrator.execute tds oracle
      = .error "TypeError: unexpected keyword argument \x27dependencies\x27" := by
  have hperm := resolve_ok_flatten_perm tds bs hres
  have hlen : bs.flatten.length = tds.length := hperm.length_eq
  have hflat : bs.flatten ≠ [] := by
    intro hc
    apply hne
    rw [hc] at hlen
    cases htds : tds with
    | nil => rfl
    | cons a l =>
      rw [htds] at hlen
      simp at hlen
  have hemp : bs.flatten.isEmpty = false := by
    cases hcase : bs.flatten with
    | nil => exact absurd hcase hflat
    | cons a l => rfl
  have hstep : Orchestrator.execute tds oracle
      = (Orchestrator.create_plan_run bs >>= fun _ =>
          pure ((bs.map (fun b =>
            b.map (fun t => (Orchestrator.execute_task oracle t).1))).flatten)) := by
    unfold Orchestrator.execute
    rw [hval, hres]
    rfl
  rw [hstep, create_plan_run_nonempty bs hemp]
  rfl

/-- C8 witness: the concrete 2-batch scenario (tasks T1, T2, T3 after T1,
T4 after T2) validates and resolves, yet `execute` raises the
`_create_plan` `TypeError` before any batch. -/
theorem C8_run_crashes_in_create_plan_witness :
    let t1 : Orchestrator.TaskDefinition :=
      { name := "T1", command := "false", prompt := "", dependencies := [], timeout := 300 }
    let t2 : Orchestrator.TaskDefinition :=
      { name := "T2", command := "true", prompt := "", dependencies := [], timeout := 300 }
    let t3 : Orchestrator.TaskDefinition :=
      { name := "T3", command := "true", prompt := "", dependencies := ["T1"], timeout := 300 }
    let t4 : Orchestrator.TaskDefinition :=
      { name := "T4", command := "true", prompt := "", dependencies := ["T2"], timeout := 300 }
    Orchestrator.execute [t1, t2, t3, t4] (fun _ => CommandOutcome.completed 0 "ok" "")
      = .error "TypeError: unexpected keyword argument \x27dependencies\x27" := by
  intro t1 t2 t3 t4
  exact C8_run_crashes_in_create_plan [t1, t2, t3, t4]
    (fun _ => CommandOutcome.completed 0 "ok" "") [[t1, t2], [t3, t4]] rfl rfl
    (by intro hc; simp at hc)
